import Mathlib

/-!
# internxt-crawler: the concurrent crawl of `crawl.go`

A shallow embedding of `crawlContacts` / `getContacts` / `_getContacts`
(`src/crawl.go`) and `writeContact` (`src/db.go`) as an interleaving
transition system.

* Every goroutine is a program counter with its local variables; one
  transition is one statement of the Go source (the two halves of `x++` are
  separate transitions, so mutual exclusion is proved and not assumed).
* `sync.Mutex` is a Boolean, `sync.WaitGroup` a counter, the buffered channel a
  FIFO list with a `closed` flag; blocking operations are transitions that are
  not enabled.
* The upstream HTTP endpoint and the SQLite sink are oracles in `Env`.
* Go's `int` counters are natural numbers: none of them can come near `2^63`
  in a run, every increment being preceded by a network fetch or a database
  insert.
* Fields `claimed`, `fetched`, `pushed`, `closes` and the page number paired
  with each queued record are history variables: transitions write them and
  never read them. Field `written` logs the `writeContact` calls that have
  returned; only its length is read, as the number of the next call.
-/

namespace Crawler

/-! ## The program -/

/-- Record `Contact` of `crawl.go`. Times are nanoseconds since the Unix epoch;
the two `float64` fields are kept as their bit patterns (the crawl never
computes with them). -/
structure Contact where
  NodeID : String
  SpaceAvailable : Bool
  LastTimeout : Int
  TimeoutRate : Nat
  ResponseTime : Nat
  Reputation : Int
  LastSeen : Int
  Address : String
  IP : String
  Protocol : String
  UserAgent : String
deriving DecidableEq

/-- Shared `PagerState` of `crawl.go`; a mutex is `true` while held. -/
structure PagerState where
  nextPage : Nat
  nextPageMutex : Bool
  totalRecords : Nat
  totalPages : Nat
  totalPagesMutex : Bool
deriving DecidableEq

/-- One row of table `contacts` as `writeContact` inserts it. -/
structure Row where
  gathered_ts : Int
  NodeID : String
  SpaceAvailable : String
  LastTimeout : Int
  TimeoutRate : Nat
  ResponseTime : Nat
  Reputation : Int
  LastSeen : Int
  Address : String
  IP : String
  Protocol : String
  UserAgent : String
deriving DecidableEq

/-- What the upstream endpoint does for one page request. -/
inductive Upstream where
  /-- `http.Get` returns an error with this message. -/
  | getFailed (msg : String)
  /-- `ioutil.ReadAll` returns an error. -/
  | readFailed
  /-- The body is read; `none` when `json.Unmarshal` rejects it. -/
  | body (decoded : Option (List Contact))
deriving DecidableEq

/-- What the database does for one `writeContact` call. -/
inductive SinkOutcome where
  /-- Both `Prepare` and `Exec` succeed. -/
  | inserted
  /-- `database.Prepare` returns an error. -/
  | prepareFailed
  /-- `statement.Exec` returns an error. -/
  | execFailed
  /-- The call never returns. -/
  | blocks
deriving DecidableEq

/-- Parameters and oracles of one run. The source fixes `concurrency = 3` and
the channel capacity `500`; the channel is buffered, so results about progress
take `1 ≤ capacity`. `sink k c` is the database's behaviour on the call number
`k` (counted from 0) with record `c`. -/
structure Env where
  concurrency : Nat
  capacity : Nat
  epoch : Int
  upstream : Nat → Upstream
  sink : Nat → Contact → SinkOutcome

/-- The parameters as `crawlContacts` fixes them: `concurrency := 3` (line 95)
and `make(chan Contact, 500)` (line 98). -/
def sourceEnv (epoch : Int) (upstream : Nat → Upstream)
    (sink : Nat → Contact → SinkOutcome) : Env where
  concurrency := 3
  capacity := 500
  epoch := epoch
  upstream := upstream
  sink := sink

/-- An abnormal process exit requested by `os.Exit` or `log.Fatal`. -/
structure Exit where
  code : Nat
  printed : String
deriving DecidableEq

/-- Runtime panics the program can raise. -/
inductive PanicReason where
  | sinkPrepare
  | sendOnClosed
  | closeOfClosed
  | negativeWaitGroup
  | unlockOfUnlocked
deriving DecidableEq

/-- Whether the process is alive. -/
inductive Status where
  | running
  | exited (code : Nat)
  | panicked (why : PanicReason)
deriving DecidableEq

/-- Program counter of one worker goroutine (`crawl.go` lines 108-111, running
`getContacts`, lines 68-92), with its live locals. -/
inductive WorkerPC where
  /-- Line 73, `state.nextPageMutex.Lock()`. -/
  | lockCursor
  /-- Line 74, `page := state.nextPage`. -/
  | readCursor
  /-- Line 75, `state.nextPage++`: load. -/
  | incLoad (page : Nat)
  /-- Line 75, `state.nextPage++`: store of `tmp + 1`. -/
  | incStore (page tmp : Nat)
  /-- Line 76, `state.nextPageMutex.Unlock()`. -/
  | unlockCursor (page : Nat)
  /-- Lines 78-83, `contacts := _getContacts(page)` and the emptiness test. -/
  | fetching (page : Nat)
  /-- Line 85, `state.totalPagesMutex.Lock()`. -/
  | lockPages (page : Nat) (contacts : List Contact)
  /-- Line 86, `state.totalPages++`: load. -/
  | loadPages (page : Nat) (contacts : List Contact)
  /-- Line 86, `state.totalPages++`: store of `tmp + 1`. -/
  | storePages (page : Nat) (contacts : List Contact) (tmp : Nat)
  /-- Line 87, `state.totalPagesMutex.Unlock()`. -/
  | unlockPages (page : Nat) (contacts : List Contact)
  /-- Lines 88-90, the loop `ch <- contacts[i]`. -/
  | emitting (page : Nat) (contacts : List Contact) (i : Nat)
  /-- Line 110, `getContacts` has returned and `wg.Done()` is next. -/
  | returned
  /-- The goroutine has ended. -/
  | done
deriving DecidableEq

/-- Program counter of the goroutine of lines 115-118. -/
inductive CloserPC where
  | notStarted
  /-- Line 116, `wg.Wait()`. -/
  | waiting
  /-- Line 117, `close(ch)`. -/
  | closing
  | finished
deriving DecidableEq

/-- Program counter of `crawlContacts` itself, from line 104 on. -/
inductive MainPC where
  /-- Lines 104-105, loop test `i < concurrency` and `wg.Add(1)`. -/
  | spawnLoop (i : Nat)
  /-- Line 108, `go func() ...` for worker `i`. -/
  | goWorker (i : Nat)
  /-- Line 115, `go func() ...` for the closer. -/
  | goCloser
  /-- Line 121, `for contact := range ch`. -/
  | recv
  /-- Line 122, `writeContact(database, contact, epoch)`. -/
  | write (page : Nat) (contact : Contact)
  /-- Line 123, `state.totalRecords++`. -/
  | count
  /-- Line 126, the summary `fmt.Printf`. -/
  | print
  /-- The function has returned; the process exits with code 0. -/
  | returned
deriving DecidableEq

/-- Channel `ch`: the buffered records, oldest first, and the closed flag.
Each record is paired with the page it was fetched from. -/
structure Chan where
  buf : List (Nat × Contact)
  closed : Bool
deriving DecidableEq

/-- Global state of a run of `crawlContacts`. -/
structure State where
  state : PagerState
  wg : Nat
  ch : Chan
  database : List Row
  main : MainPC
  workers : List WorkerPC
  closer : CloserPC
  status : Status
  stdout : String
  claimed : List Nat
  fetched : List Nat
  pushed : List (Nat × Contact)
  written : List (Nat × Contact)
  closes : Nat
deriving DecidableEq

/-- Scheduler choice: which goroutine takes the next transition. -/
inductive Tid where
  | main
  | closer
  | worker (i : Nat)
deriving DecidableEq

/-- Function `bool2IntStr` of `db.go`. -/
def bool2IntStr (val : Bool) : String :=
  if val then "1" else "0"

/-- Row built by the `statement.Exec` call of `writeContact`. -/
def mkRow (c : Contact) (epoch : Int) : Row where
  gathered_ts := epoch
  NodeID := c.NodeID
  SpaceAvailable := bool2IntStr c.SpaceAvailable
  LastTimeout := c.LastTimeout
  TimeoutRate := c.TimeoutRate
  ResponseTime := c.ResponseTime
  Reputation := c.Reputation
  LastSeen := c.LastSeen
  Address := c.Address
  IP := c.IP
  Protocol := c.Protocol
  UserAgent := c.UserAgent

/-- Result of one `writeContact` call. -/
inductive WriteResult where
  | returned (database : List Row)
  | panicked
  | hangs
deriving DecidableEq

/-- Function `writeContact` of `db.go`: `checkErr` panics on a `Prepare` error; the
result of `statement.Exec` is discarded, so an `Exec` error returns normally
without a row. -/
def writeContact (outcome : SinkOutcome) (database : List Row) (c : Contact)
    (epoch : Int) : WriteResult :=
  match outcome with
  | .prepareFailed => .panicked
  | .execFailed => .returned database
  | .inserted => .returned (database ++ [mkRow c epoch])
  | .blocks => .hangs

/-- Function `_getContacts` of `crawl.go`: the three error exits (`os.Exit(1)` after
printing the message, `log.Fatal` twice) or the decoded page. -/
def _getContacts (upstream : Nat → Upstream) (page : Nat) : Except Exit (List Contact) :=
  match upstream page with
  | .getFailed msg => .error { code := 1, printed := msg }
  | .readFailed => .error { code := 1, printed := "" }
  | .body none => .error { code := 1, printed := "" }
  | .body (some pageOfContacts) => .ok pageOfContacts

/-- The summary line of line 126. -/
def summary (totalRecords totalPages : Nat) : String :=
  "Processed " ++ toString totalRecords ++ " records in " ++ toString totalPages ++ " pages.\n"

/-- One transition of worker `i` standing at `pc`: the body of `getContacts`
followed by `wg.Done()`. `none` when the worker is blocked or has ended. -/
def getContacts (env : Env) (s : State) (i : Nat) : WorkerPC → Option State
  | .lockCursor =>
    if s.state.nextPageMutex then none
    else some { s with
      state := { s.state with nextPageMutex := true }
      workers := s.workers.set i .readCursor }
  | .readCursor =>
    some { s with
      workers := s.workers.set i (.incLoad s.state.nextPage)
      claimed := s.claimed ++ [s.state.nextPage] }
  | .incLoad page =>
    some { s with workers := s.workers.set i (.incStore page s.state.nextPage) }
  | .incStore page tmp =>
    some { s with
      state := { s.state with nextPage := tmp + 1 }
      workers := s.workers.set i (.unlockCursor page) }
  | .unlockCursor page =>
    if s.state.nextPageMutex then
      some { s with
        state := { s.state with nextPageMutex := false }
        workers := s.workers.set i (.fetching page) }
    else some { s with status := .panicked .unlockOfUnlocked }
  | .fetching page =>
    match _getContacts env.upstream page with
    | .error e =>
      some { s with status := .exited e.code, stdout := s.stdout ++ e.printed }
    | .ok contacts =>
      if contacts.length = 0 then
        some { s with
          workers := s.workers.set i .returned
          fetched := s.fetched ++ [page] }
      else
        some { s with
          workers := s.workers.set i (.lockPages page contacts)
          fetched := s.fetched ++ [page] }
  | .lockPages page contacts =>
    if s.state.totalPagesMutex then none
    else some { s with
      state := { s.state with totalPagesMutex := true }
      workers := s.workers.set i (.loadPages page contacts) }
  | .loadPages page contacts =>
    some { s with workers := s.workers.set i (.storePages page contacts s.state.totalPages) }
  | .storePages page contacts tmp =>
    some { s with
      state := { s.state with totalPages := tmp + 1 }
      workers := s.workers.set i (.unlockPages page contacts) }
  | .unlockPages page contacts =>
    if s.state.totalPagesMutex then
      some { s with
        state := { s.state with totalPagesMutex := false }
        workers := s.workers.set i (.emitting page contacts 0) }
    else some { s with status := .panicked .unlockOfUnlocked }
  | .emitting page contacts k =>
    match contacts[k]? with
    | none => some { s with workers := s.workers.set i .lockCursor }
    | some contact =>
      if s.ch.closed then some { s with status := .panicked .sendOnClosed }
      else if s.ch.buf.length < env.capacity then
        some { s with
          ch := { s.ch with buf := s.ch.buf ++ [(page, contact)] }
          workers := s.workers.set i (.emitting page contacts (k + 1))
          pushed := s.pushed ++ [(page, contact)] }
      else none
  | .returned =>
    if s.wg = 0 then some { s with status := .panicked .negativeWaitGroup }
    else some { s with wg := s.wg - 1, workers := s.workers.set i .done }
  | .done => none

/-- One transition of the closer goroutine (lines 115-118). -/
def closerStep (s : State) : Option State :=
  match s.closer with
  | .notStarted => none
  | .waiting => if s.wg = 0 then some { s with closer := .closing } else none
  | .closing =>
    if s.ch.closed then some { s with status := .panicked .closeOfClosed }
    else some { s with
      ch := { s.ch with closed := true }
      closer := .finished
      closes := s.closes + 1 }
  | .finished => none

/-- One transition of the goroutine running `crawlContacts` (lines 104-126). -/
def crawlContacts (env : Env) (s : State) : Option State :=
  match s.main with
  | .spawnLoop i =>
    if i < env.concurrency then some { s with wg := s.wg + 1, main := .goWorker i }
    else some { s with main := .goCloser }
  | .goWorker i =>
    some { s with workers := s.workers ++ [.lockCursor], main := .spawnLoop (i + 1) }
  | .goCloser => some { s with closer := .waiting, main := .recv }
  | .recv =>
    match s.ch.buf with
    | (page, contact) :: rest =>
      some { s with ch := { s.ch with buf := rest }, main := .write page contact }
    | [] => if s.ch.closed then some { s with main := .print } else none
  | .write page contact =>
    match writeContact (env.sink s.written.length contact) s.database contact env.epoch with
    | .returned database =>
      some { s with
        database := database
        written := s.written ++ [(page, contact)]
        main := .count }
    | .panicked => some { s with status := .panicked .sinkPrepare }
    | .hangs => none
  | .count =>
    some { s with
      state := { s.state with totalRecords := s.state.totalRecords + 1 }
      main := .recv }
  | .print =>
    some { s with
      stdout := s.stdout ++ summary s.state.totalRecords s.state.totalPages
      main := .returned }
  | .returned => none

/-- State at line 104: `PagerState{nextPage: 1}`, an empty wait group, the
fresh channel, the database opened. -/
def init : State where
  state := { nextPage := 1, nextPageMutex := false, totalRecords := 0, totalPages := 0,
             totalPagesMutex := false }
  wg := 0
  ch := { buf := [], closed := false }
  database := []
  main := .spawnLoop 0
  workers := []
  closer := .notStarted
  status := .running
  stdout := ""
  claimed := []
  fetched := []
  pushed := []
  written := []
  closes := 0

/-- One transition of the whole process: goroutine `t` moves. Nothing moves
once the process has exited, panicked, or `crawlContacts` has returned. -/
def step (env : Env) (s : State) (t : Tid) : Option State :=
  if s.status = .running ∧ s.main ≠ .returned then
    match t with
    | .main => crawlContacts env s
    | .closer => closerStep s
    | .worker i =>
      match s.workers[i]? with
      | none => none
      | some pc => getContacts env s i pc
  else none

/-- Run a schedule from `s`; `none` when it names a goroutine that cannot move. -/
def runFrom (env : Env) (s : State) : List Tid → Option State
  | [] => some s
  | t :: rest =>
    match step env s t with
    | none => none
    | some s' => runFrom env s' rest

/-- States the run can be in: those some schedule leads to from `init`. -/
def Reachable (env : Env) (s : State) : Prop :=
  ∃ sched, runFrom env init sched = some s

/-! ## Weights over the workers -/

/-- Sum of a weight over the workers. -/
def wsum {α : Type} (f : α → Nat) (l : List α) : Nat := (l.map f).sum

/-! ## Invariants: definitions -/

/-- Batch the upstream serves for `page`; empty when the request fails. -/
def batch (env : Env) (page : Nat) : List Contact :=
  match _getContacts env.upstream page with
  | .ok cs => cs
  | .error _ => []

/-- Whether `page` is served with at least one record. -/
def nonEmptyPage (env : Env) (page : Nat) : Bool :=
  !(batch env page).isEmpty

/-- Weight 1 on the program points inside the `nextPageMutex` section. -/
def inCursorCS : WorkerPC → Nat
  | .readCursor => 1
  | .incLoad _ => 1
  | .incStore _ _ => 1
  | .unlockCursor _ => 1
  | _ => 0

/-- Weight 1 where a page is claimed and `nextPage` not yet stored. -/
def pendingInc : WorkerPC → Nat
  | .incLoad _ => 1
  | .incStore _ _ => 1
  | _ => 0

/-- Weight 1 on the program points inside the `totalPagesMutex` section. -/
def inPagesCS : WorkerPC → Nat
  | .loadPages _ _ => 1
  | .storePages _ _ _ => 1
  | .unlockPages _ _ => 1
  | _ => 0

/-- Weight 1 where a non-empty page is fetched and `totalPages` not yet stored. -/
def pendingPage : WorkerPC → Nat
  | .lockPages _ _ => 1
  | .loadPages _ _ => 1
  | .storePages _ _ _ => 1
  | _ => 0

/-- Weight 1 once `getContacts` has returned. -/
def retired : WorkerPC → Nat
  | .returned => 1
  | .done => 1
  | _ => 0

/-- Weight 1 once the goroutine has ended. -/
def isDone : WorkerPC → Nat
  | .done => 1
  | _ => 0

/-- Page held in local `page`, if any. -/
def pageOf : WorkerPC → Option Nat
  | .incLoad p => some p
  | .incStore p _ => some p
  | .unlockCursor p => some p
  | .fetching p => some p
  | .lockPages p _ => some p
  | .loadPages p _ => some p
  | .storePages p _ _ => some p
  | .unlockPages p _ => some p
  | .emitting p _ _ => some p
  | _ => none

/-- Page claimed and not yet fetched, if any. -/
def prefetchOf : WorkerPC → Option Nat
  | .incLoad p => some p
  | .incStore p _ => some p
  | .unlockCursor p => some p
  | .fetching p => some p
  | _ => none

/-- Weight 1 when the worker holds page `p`. -/
def holds (p : Nat) (w : WorkerPC) : Nat := if pageOf w = some p then 1 else 0

/-- Weight 1 when the worker holds page `p` and has not fetched it. -/
def prefetch (p : Nat) (w : WorkerPC) : Nat := if prefetchOf w = some p then 1 else 0

/-- Records fetched and not yet sent. -/
def remaining : WorkerPC → List Contact
  | .lockPages _ cs => cs
  | .loadPages _ cs => cs
  | .storePages _ cs _ => cs
  | .unlockPages _ cs => cs
  | .emitting _ cs k => cs.drop k
  | _ => []

/-- A loaded `tmp` is still the value of the counter it was loaded from. -/
def tmpOk (nextPage totalPages : Nat) : WorkerPC → Prop
  | .incStore _ t => t = nextPage
  | .storePages _ _ t => t = totalPages
  | _ => True

/-- Local `contacts` is the non-empty batch fetched for local `page`. -/
def batchOk (env : Env) : WorkerPC → Prop
  | .lockPages p cs => _getContacts env.upstream p = .ok cs ∧ cs ≠ []
  | .loadPages p cs => _getContacts env.upstream p = .ok cs ∧ cs ≠ []
  | .storePages p cs _ => _getContacts env.upstream p = .ok cs ∧ cs ≠ []
  | .unlockPages p cs => _getContacts env.upstream p = .ok cs ∧ cs ≠ []
  | .emitting p cs _ => _getContacts env.upstream p = .ok cs ∧ cs ≠ []
  | _ => True

/-- Invariant of the page cursor, the two mutexes and the page counters. -/
structure Core (env : Env) (s : State) : Prop where
  cursorMutex : wsum inCursorCS s.workers = if s.state.nextPageMutex then 1 else 0
  pagesMutex : wsum inPagesCS s.workers = if s.state.totalPagesMutex then 1 else 0
  claimedRange : s.claimed = List.range' 1 s.claimed.length
  cursor : s.state.nextPage + wsum pendingInc s.workers = s.claimed.length + 1
  tmp : ∀ w ∈ s.workers, tmpOk s.state.nextPage s.state.totalPages w
  batches : ∀ w ∈ s.workers, batchOk env w
  fetchedCount : ∀ p, s.fetched.count p + wsum (prefetch p) s.workers = s.claimed.count p
  holdsCount : ∀ p, wsum (holds p) s.workers ≤ s.claimed.count p
  pages : s.state.totalPages + wsum pendingPage s.workers
      = (s.fetched.filter (nonEmptyPage env)).length
  retiredCount : wsum retired s.workers
      = (s.fetched.filter (fun p => !nonEmptyPage env p)).length

/-- Number of worker goroutines started so far, read off the main program counter. -/
def spawned (n : Nat) : MainPC → Nat
  | .spawnLoop i => i
  | .goWorker i => i
  | _ => n

/-- Number of `wg.Add(1)` calls executed so far. -/
def added (n : Nat) : MainPC → Nat
  | .spawnLoop i => i
  | .goWorker i => i + 1
  | _ => n

/-- The loop counter of lines 104-112 is within its bound. -/
def spawnOk (n : Nat) : MainPC → Prop
  | .spawnLoop i => i ≤ n
  | .goWorker i => i < n
  | _ => True

/-- Whether main has not yet started the closer goroutine. -/
def beforeCloser : MainPC → Bool
  | .spawnLoop _ => true
  | .goWorker _ => true
  | .goCloser => true
  | _ => false

/-- Whether main has left the receive loop. -/
def afterLoop : MainPC → Bool
  | .print => true
  | .returned => true
  | _ => false

/-- Whether the closer has got past `wg.Wait()`. -/
def pastWait : CloserPC → Bool
  | .closing => true
  | .finished => true
  | _ => false

/-- Invariant of the termination protocol: wait group, closer, channel. -/
structure Proto (env : Env) (s : State) : Prop where
  spawnedLen : s.workers.length = spawned env.concurrency s.main
  bound : spawnOk env.concurrency s.main
  wgCount : s.wg + wsum isDone s.workers = added env.concurrency s.main
  closerStart : s.closer = .notStarted ↔ beforeCloser s.main = true
  closedIff : s.ch.closed = true ↔ s.closer = .finished
  closesCount : s.closes = if s.ch.closed then 1 else 0
  closerWg : pastWait s.closer = true → s.wg = 0
  drained : afterLoop s.main = true → s.ch.closed = true ∧ s.ch.buf = []
  cap : s.ch.buf.length ≤ env.capacity
  noPanic : s.status = .running ∨ (∃ c, s.status = .exited c) ∨ s.status = .panicked .sinkPrepare

/-- Record main has received and not yet passed through `writeContact`. -/
def inHand : MainPC → List (Nat × Contact)
  | .write page contact => [(page, contact)]
  | _ => []

/-- Weight 1 where a record is written and `totalRecords` not yet incremented. -/
def uncounted : MainPC → Nat
  | .count => 1
  | _ => 0

/-- Records of page `p` among the queue entries `l`, in queue order. -/
def pushedOf (l : List (Nat × Contact)) (p : Nat) : List Contact :=
  (l.filter (fun x => x.1 == p)).map Prod.snd

/-- Records of its batch the worker has already sent. -/
def sent : WorkerPC → List Contact
  | .emitting _ cs k => cs.take k
  | _ => []

/-- Invariant of the records in flight: channel order, conservation, per-page order. -/
structure Recs (env : Env) (s : State) : Prop where
  fifo : s.written ++ inHand s.main ++ s.ch.buf = s.pushed
  counted : s.state.totalRecords + uncounted s.main = s.written.length
  conserve : ∀ c, (s.pushed.map Prod.snd).count c
      + wsum (fun w => (remaining w).count c) s.workers
      = (s.fetched.flatMap (batch env)).count c
  order : ∀ w ∈ s.workers, ∀ p, pageOf w = some p → pushedOf s.pushed p = sent w
  settled : ∀ p, wsum (holds p) s.workers = 0 →
      pushedOf s.pushed p = if p ∈ s.fetched then batch env p else []

/-- The upstream serves non-empty pages `1..K` and then at least `concurrency`
empty pages. -/
def Shape (env : Env) (K : Nat) : Prop :=
  (∀ p, 1 ≤ p → p ≤ K → ∃ cs, _getContacts env.upstream p = .ok cs ∧ cs ≠ []) ∧
  (∀ p, K < p → p ≤ K + env.concurrency → _getContacts env.upstream p = .ok [])

/-- Every `writeContact` call returns: the database never blocks and `Prepare`
never fails. -/
def SinkReturns (env : Env) : Prop :=
  ∀ k c, env.sink k c = .inserted ∨ env.sink k c = .execFailed

/-- Weight 1 on a worker that has claimed a page beyond `K` (and will therefore
return, or has returned). -/
def beyond (K : Nat) : WorkerPC → Nat
  | .incLoad p => if K < p then 1 else 0
  | .incStore p _ => if K < p then 1 else 0
  | .unlockCursor p => if K < p then 1 else 0
  | .fetching p => if K < p then 1 else 0
  | .returned => 1
  | .done => 1
  | _ => 0

/-- Invariant under `Shape`: the pages claimed beyond `K` are as many as the
workers that claimed one, and the process stays alive when the sink returns. -/
structure Bounded (env : Env) (K : Nat) (s : State) : Prop where
  beyondCount : s.claimed.length - K = wsum (beyond K) s.workers
  alive : SinkReturns env → s.status = .running

/-! ## Termination measure -/

/-- Transitions spent on one non-empty page: 11 by the worker around the sends,
and per record one send and three transitions of main. -/
def pageCost (env : Env) (p : Nat) : Nat := 11 + 4 * (batch env p).length

/-- Cost of the pages `claimedLen + 1 .. K`, not yet claimed. -/
def pool (env : Env) (K claimedLen : Nat) : Nat :=
  ((List.range' (claimedLen + 1) (K - claimedLen)).map (pageCost env)).sum

/-- Transitions a worker still has to make for the page it holds and for its
last, empty, page. -/
def workerCost (env : Env) (K : Nat) : WorkerPC → Nat
  | .lockCursor => 7
  | .readCursor => 6
  | .incLoad p => if p ≤ K then pageCost env p + 5 else 5
  | .incStore p _ => if p ≤ K then pageCost env p + 4 else 4
  | .unlockCursor p => if p ≤ K then pageCost env p + 3 else 3
  | .fetching p => if p ≤ K then pageCost env p + 2 else 2
  | .lockPages _ cs => 4 * cs.length + 12
  | .loadPages _ cs => 4 * cs.length + 11
  | .storePages _ cs _ => 4 * cs.length + 10
  | .unlockPages _ cs => 4 * cs.length + 9
  | .emitting _ cs k => 4 * (cs.length - k) + 8
  | .returned => 1
  | .done => 0

/-- Transitions main still has to make, the workers not yet started included. -/
def mainCost (n : Nat) : MainPC → Nat
  | .spawnLoop i => 9 * (n - i) + 4
  | .goWorker i => 9 * (n - i) + 3
  | .goCloser => 3
  | .recv => 2
  | .write _ _ => 4
  | .count => 3
  | .print => 1
  | .returned => 0

/-- Transitions the closer still has to make. -/
def closerCost : CloserPC → Nat
  | .notStarted => 2
  | .waiting => 2
  | .closing => 1
  | .finished => 0

/-- Number of transitions left before `crawlContacts` returns. -/
def measure (env : Env) (K : Nat) (s : State) : Nat :=
  pool env K s.claimed.length + wsum (workerCost env K) s.workers
    + mainCost env.concurrency s.main + closerCost s.closer + 3 * s.ch.buf.length

/-- Invariant of the standard output: nothing is printed by a live process
before the summary, and the summary is the last thing a returned run did. -/
structure Out (s : State) : Prop where
  ret : s.main = .returned → s.status = .running
  quiet : s.status = .running →
    s.stdout = if s.main = .returned then summary s.state.totalRecords s.state.totalPages else ""

/-- What a run that left the receive loop looks like. -/
structure Finished (env : Env) (s : State) : Prop where
  allDone : ∀ w ∈ s.workers, w = .done
  poolSize : s.workers.length = env.concurrency
  chClosed : s.ch.closed = true
  bufEmpty : s.ch.buf = []
  claimedAll : s.claimed = List.range' 1 (s.state.totalPages + env.concurrency)
  fetchedAll : s.fetched.Perm (List.range' 1 (s.state.totalPages + env.concurrency))
  cursorEnd : s.state.nextPage = s.state.totalPages + env.concurrency + 1
  nonEmpty : (s.fetched.filter (nonEmptyPage env)).length = s.state.totalPages
  empty : (s.fetched.filter (fun p => !nonEmptyPage env p)).length = env.concurrency

/-! ## Observables -/

/-- State a schedule leads to (the initial state if the schedule cannot be run). -/
def runOf (env : Env) (sched : List Tid) : State := (runFrom env init sched).getD init

/-- Records the collector has taken off the channel, in order. -/
def received (s : State) : List (Nat × Contact) := s.written ++ inHand s.main

/-- Records fetched by a worker and not yet accepted by the sink. -/
def inFlight (s : State) : Nat :=
  wsum (fun w => (remaining w).length) s.workers + s.ch.buf.length + (inHand s.main).length

/-! ## Concrete runs -/

/-- A contact record with the given node identifier. -/
def mkContact (n : String) : Contact :=
  { NodeID := n, SpaceAvailable := true, LastTimeout := 0, TimeoutRate := 0, ResponseTime := 0,
    Reputation := 0, LastSeen := 0, Address := "", IP := "", Protocol := "", UserAgent := "" }

/-- The scenario of the specification: one worker, two records on page 1, three
on page 2, nothing from page 3 on. -/
def twoPages : Env where
  concurrency := 1
  capacity := 500
  epoch := 0
  upstream := fun p =>
    if p = 1 then .body (some [mkContact "a", mkContact "b"])
    else if p = 2 then .body (some [mkContact "x", mkContact "y", mkContact "z"])
    else .body (some [])
  sink := fun _ _ => .inserted

/-- A complete run of `twoPages`: the worker runs to its end before main receives. -/
def twoPagesRun : List Tid :=
  List.replicate 2 .main ++ List.replicate 34 (.worker 0) ++ List.replicate 2 .main
    ++ List.replicate 2 .closer ++ List.replicate 17 .main

/-- Two workers on a channel of capacity 2: page 1 has two records, page 2 one,
nothing from page 3 on. -/
def twoWorkers : Env where
  concurrency := 2
  capacity := 2
  epoch := 7
  upstream := fun p =>
    if p = 1 then .body (some [mkContact "a", mkContact "b"])
    else if p = 2 then .body (some [mkContact "x"])
    else .body (some [])
  sink := fun _ _ => .inserted

/-- A prefix of a run of `twoWorkers`: both workers started, each has claimed a page. -/
def twoWorkersClaims : List Tid :=
  List.replicate 6 .main ++ List.replicate 5 (.worker 0) ++ List.replicate 5 (.worker 1)

/-- A complete run of `twoWorkers` in which the record of page 2 reaches the
channel between the two records of page 1. -/
def twoWorkersRun : List Tid :=
  twoWorkersClaims ++ List.replicate 5 (.worker 0) ++ List.replicate 5 (.worker 1)
    ++ [.worker 0, .worker 1] ++ List.replicate 3 .main ++ [.worker 0]
    ++ List.replicate 6 .main ++ List.replicate 8 (.worker 0) ++ List.replicate 8 (.worker 1)
    ++ List.replicate 2 .closer ++ List.replicate 2 .main

/-- The second scenario of the specification: the source's three workers and
capacity 500, every page empty. -/
def emptyThree : Env :=
  sourceEnv 0 (fun _ => .body (some [])) (fun _ _ => .inserted)

/-- A complete run of `emptyThree`, the three workers taking turns. -/
def emptyThreeRun : List Tid :=
  List.replicate 8 .main
    ++ List.replicate 5 (.worker 0) ++ [.worker 1, .worker 0]
    ++ List.replicate 4 (.worker 1) ++ [.worker 2, .worker 0, .worker 1]
    ++ List.replicate 4 (.worker 2) ++ [.worker 1, .worker 2, .worker 2]
    ++ List.replicate 2 .closer ++ List.replicate 2 .main

/-- One worker, a channel of capacity 1, four records on page 1 and a database
that never answers. -/
def slowSink : Env where
  concurrency := 1
  capacity := 1
  epoch := 0
  upstream := fun p =>
    if p = 1 then .body (some [mkContact "a", mkContact "b", mkContact "c", mkContact "d"])
    else .body (some [])
  sink := fun _ _ => .blocks

/-- A run of `slowSink` up to the point where nothing can move: main waits in
`writeContact`, the channel is full and the worker waits to send. -/
def slowSinkRun : List Tid :=
  List.replicate 4 .main ++ List.replicate 11 (.worker 0) ++ [.main, .worker 0]

/-- A prefix of `slowSinkRun`: the worker has fetched page 1 and main has not
received anything yet. -/
def slowSinkFetched : List Tid :=
  List.replicate 4 .main ++ List.replicate 6 (.worker 0)

/-- One worker and an upstream whose first request fails in `http.Get`. -/
def getFails : Env where
  concurrency := 1
  capacity := 500
  epoch := 0
  upstream := fun _ => .getFailed "connection refused"
  sink := fun _ _ => .inserted

/-- A run of `getFails` up to the fetch of page 1. -/
def getFailsRun : List Tid :=
  List.replicate 2 .main ++ List.replicate 5 (.worker 0)

/-- One worker, one record on page 1, and a database whose `Prepare` fails. -/
def prepareFails : Env where
  concurrency := 1
  capacity := 500
  epoch := 0
  upstream := fun p => if p = 1 then .body (some [mkContact "a"]) else .body (some [])
  sink := fun _ _ => .prepareFailed

/-- A run of `prepareFails` up to the `writeContact` call for the record. -/
def prepareFailsRun : List Tid :=
  List.replicate 2 .main ++ List.replicate 11 (.worker 0) ++ List.replicate 3 .main

/-- One worker, one record on page 1, and a database whose `Exec` fails. -/
def execFails : Env where
  concurrency := 1
  capacity := 500
  epoch := 0
  upstream := fun p => if p = 1 then .body (some [mkContact "a"]) else .body (some [])
  sink := fun _ _ => .execFailed

/-- A complete run of `execFails`. -/
def execFailsRun : List Tid :=
  List.replicate 2 .main ++ List.replicate 19 (.worker 0) ++ List.replicate 2 .main
    ++ List.replicate 2 .closer ++ List.replicate 5 .main

/-! ## Sums over the workers -/

theorem perm_eraseIdx {α : Type} {l : List α} {i : Nat} {a : α} (h : l[i]? = some a) :
    l.Perm (a :: l.eraseIdx i) := by
  induction l generalizing i with
  | nil => simp at h
  | cons x xs ih =>
    cases i with
    | zero => simp at h; subst h; simp
    | succ n =>
      simp at h
      have := ih h
      simp only [List.eraseIdx_cons_succ]
      exact (List.Perm.cons x this).trans (List.Perm.swap a x _)

theorem perm_set {α : Type} {l : List α} {i : Nat} {a : α} (h : l[i]? = some a) (b : α) :
    (l.set i b).Perm (b :: l.eraseIdx i) := by
  induction l generalizing i with
  | nil => simp at h
  | cons x xs ih =>
    cases i with
    | zero => simp
    | succ n =>
      simp at h
      have := ih h
      simp only [List.eraseIdx_cons_succ, List.set_cons_succ]
      exact (List.Perm.cons x this).trans (List.Perm.swap b x _)

theorem wsum_perm {α : Type} (f : α → Nat) {l l' : List α} (h : l.Perm l') :
    wsum f l = wsum f l' := by
  unfold wsum
  exact (h.map f).sum_eq

theorem wsum_split {α : Type} {f : α → Nat} {l : List α} {i : Nat} {a : α}
    (h : l[i]? = some a) : wsum f l = wsum f (l.eraseIdx i) + f a := by
  rw [wsum_perm f (perm_eraseIdx h)]
  simp [wsum, Nat.add_comm]

theorem wsum_set {α : Type} {f : α → Nat} {l : List α} {i : Nat} {a : α}
    (h : l[i]? = some a) (b : α) : wsum f (l.set i b) = wsum f (l.eraseIdx i) + f b := by
  rw [wsum_perm f (perm_set h b)]
  simp [wsum, Nat.add_comm]

theorem wsum_append {α : Type} (f : α → Nat) (l : List α) (b : α) :
    wsum f (l ++ [b]) = wsum f l + f b := by
  simp [wsum]

theorem wsum_nil {α : Type} (f : α → Nat) : wsum f ([] : List α) = 0 := rfl

theorem mem_split {α : Type} {l : List α} {i : Nat} {a : α} (h : l[i]? = some a) (x : α) :
    x ∈ l ↔ x = a ∨ x ∈ l.eraseIdx i := by
  rw [(perm_eraseIdx h).mem_iff]; simp

theorem mem_set_split {α : Type} {l : List α} {i : Nat} {a : α} (h : l[i]? = some a)
    (b x : α) : x ∈ l.set i b ↔ x = b ∨ x ∈ l.eraseIdx i := by
  rw [(perm_set h b).mem_iff]; simp

theorem wsum_eq_zero {α : Type} {f : α → Nat} {l : List α} (h : wsum f l = 0) :
    ∀ x ∈ l, f x = 0 := by
  induction l with
  | nil => simp
  | cons a l ih =>
    simp [wsum] at h
    intro x hx
    simp at hx
    rcases hx with rfl | hx
    · exact h.1
    · exact ih (by simpa [wsum] using h.2) x hx

theorem wsum_zero_of {α : Type} {f : α → Nat} {l : List α} (h : ∀ x ∈ l, f x = 0) :
    wsum f l = 0 := by
  induction l with
  | nil => rfl
  | cons a l ih =>
    simp [wsum] at *
    exact ⟨h.1, by simpa [wsum] using ih h.2⟩

theorem wsum_le_length {α : Type} {f : α → Nat} (hf : ∀ x, f x ≤ 1) (l : List α) :
    wsum f l ≤ l.length := by
  induction l with
  | nil => simp [wsum]
  | cons a l ih =>
    simp [wsum] at *
    have := hf a
    omega

theorem wsum_eq_length {α : Type} {f : α → Nat} (hf : ∀ x, f x ≤ 1) {l : List α}
    (h : wsum f l = l.length) : ∀ x ∈ l, f x = 1 := by
  induction l with
  | nil => simp
  | cons a l ih =>
    have h1 := hf a
    have h2 := wsum_le_length hf l
    simp [wsum] at h h2
    intro x hx
    simp at hx
    rcases hx with rfl | hx
    · omega
    · exact ih (by simp [wsum]; omega) x hx

theorem wsum_le_of_le {α : Type} {f g : α → Nat} (h : ∀ x, f x ≤ g x) (l : List α) :
    wsum f l ≤ wsum g l := by
  induction l with
  | nil => simp [wsum]
  | cons a l ih =>
    simp [wsum] at *
    have := h a
    omega

theorem length_eraseIdx_add_one {α : Type} {l : List α} {i : Nat} {a : α} (h : l[i]? = some a) :
    (l.eraseIdx i).length + 1 = l.length := by
  have := (perm_eraseIdx h).length_eq
  simp at this
  omega

/-! ## The cursor, the mutexes and the page counters -/

theorem pendingInc_le (w : WorkerPC) : pendingInc w ≤ inCursorCS w := by
  cases w <;> simp [pendingInc, inCursorCS]

theorem inCursorCS_le (w : WorkerPC) : inCursorCS w ≤ 1 := by
  cases w <;> simp [inCursorCS]

theorem inPagesCS_le (w : WorkerPC) : inPagesCS w ≤ 1 := by
  cases w <;> simp [inPagesCS]

theorem prefetch_le_holds (p : Nat) (w : WorkerPC) : prefetch p w ≤ holds p w := by
  cases w <;> simp [prefetch, holds, prefetchOf, pageOf]

theorem tmpOk_of_cursor {n n' t : Nat} {w : WorkerPC} (h : tmpOk n t w)
    (hw : inCursorCS w = 0) : tmpOk n' t w := by
  cases w <;> simp_all [tmpOk, inCursorCS]

theorem tmpOk_of_pages {n t t' : Nat} {w : WorkerPC} (h : tmpOk n t w)
    (hw : inPagesCS w = 0) : tmpOk n t' w := by
  cases w <;> simp_all [tmpOk, inPagesCS]

theorem core_init (env : Env) : Core env init := by
  constructor <;> simp [init, wsum]

theorem count_range' (a n p : Nat) :
    (List.range' a n).count p = if a ≤ p ∧ p < a + n then 1 else 0 := by
  induction n generalizing a with
  | zero => rw [if_neg (by omega)]; simp
  | succ n ih =>
    rw [List.range'_succ, List.count_cons, ih]
    by_cases h1 : a = p
    · subst h1; simp
    · simp [h1]
      by_cases h2 : a + 1 ≤ p ∧ p < a + 1 + n
      · rw [if_pos h2, if_pos]; omega
      · rw [if_neg h2, if_neg]; omega

theorem core_congr {env : Env} {s s' : State} (h : Core env s)
    (e1 : s'.state.nextPage = s.state.nextPage)
    (e2 : s'.state.nextPageMutex = s.state.nextPageMutex)
    (e3 : s'.state.totalPages = s.state.totalPages)
    (e4 : s'.state.totalPagesMutex = s.state.totalPagesMutex)
    (e5 : s'.workers = s.workers) (e6 : s'.claimed = s.claimed)
    (e7 : s'.fetched = s.fetched) : Core env s' := by
  obtain ⟨h1, h2, h3, h4, h5, h6, h7, h8, h9, h10⟩ := h
  constructor <;> simp only [e1, e2, e3, e4, e5, e6, e7] <;> assumption

theorem nonEmptyPage_of_ok {env : Env} {page : Nat} {cs : List Contact}
    (h : _getContacts env.upstream page = .ok cs) : nonEmptyPage env page = !cs.isEmpty := by
  simp [nonEmptyPage, batch, h]

theorem batch_of_ok {env : Env} {page : Nat} {cs : List Contact}
    (h : _getContacts env.upstream page = .ok cs) : batch env page = cs := by
  simp [batch, h]

theorem nonEmptyPage_true {env : Env} {page : Nat} {cs : List Contact}
    (h : _getContacts env.upstream page = .ok cs) (hl : cs ≠ []) :
    nonEmptyPage env page = true := by
  rw [nonEmptyPage_of_ok h]
  cases cs with
  | nil => exact absurd rfl hl
  | cons a l => rfl

theorem nonEmptyPage_false {env : Env} {page : Nat} {cs : List Contact}
    (h : _getContacts env.upstream page = .ok cs) (hl : cs = []) :
    nonEmptyPage env page = false := by
  rw [nonEmptyPage_of_ok h, hl]
  rfl

theorem core_worker {env : Env} {s s' : State} {i : Nat} {pc : WorkerPC}
    (h : Core env s) (hi : s.workers[i]? = some pc)
    (hs : getContacts env s i pc = some s') : Core env s' := by
  have ⟨h1, h2, h3, h4, h5, h6, h7, h8, h9, h10⟩ := h
  simp only [wsum_split hi, mem_split hi] at h1 h2 h4 h5 h6 h7 h8 h9 h10
  have h5' := fun a ha => h5 a (Or.inr ha)
  have h6' := fun a ha => h6 a (Or.inr ha)
  have h5i := h5 _ (Or.inl rfl)
  have h6i := h6 _ (Or.inl rfl)
  cases pc with
  | lockCursor =>
    simp [getContacts] at hs
    obtain ⟨hm, rfl⟩ := hs
    simp [inCursorCS, inPagesCS, pendingInc, holds, prefetch, pageOf, prefetchOf, pendingPage,
      retired, hm] at h1 h2 h4 h7 h8 h9 h10
    constructor <;> simp [wsum_set hi, mem_set_split hi, inCursorCS, inPagesCS, pendingInc, holds,
      prefetch, pageOf, prefetchOf, pendingPage, retired]
    all_goals first
      | assumption
      | exact ⟨by simp [tmpOk], h5'⟩
      | exact ⟨by simp [batchOk], h6'⟩
  | readCursor =>
    simp [getContacts] at hs
    subst hs
    simp [inCursorCS, inPagesCS, pendingInc, holds, prefetch, pageOf, prefetchOf, pendingPage,
      retired] at h1 h2 h4 h7 h8 h9 h10
    have hz : wsum inCursorCS (s.workers.eraseIdx i) = 0 := by
      split at h1 <;> omega
    have hz' : wsum pendingInc (s.workers.eraseIdx i) = 0 := by
      have := wsum_le_of_le pendingInc_le (s.workers.eraseIdx i)
      omega
    have hn : s.state.nextPage = 1 + s.claimed.length := by omega
    constructor <;> simp [wsum_set hi, mem_set_split hi, inCursorCS, inPagesCS, pendingInc, holds,
      prefetch, pageOf, prefetchOf, pendingPage, retired]
    case claimedRange =>
      rw [List.range'_1_concat, ← h3, hn]
    case fetchedCount =>
      intro p
      have a := h7 p
      simp only [List.count_singleton, beq_iff_eq]
      omega
    case holdsCount =>
      intro p
      have a := h8 p
      simp only [List.count_singleton, beq_iff_eq]
      omega
    all_goals first
      | assumption
      | omega
      | exact ⟨by simp [tmpOk], h5'⟩
      | exact ⟨by simp [batchOk], h6'⟩
  | incLoad page =>
    simp [getContacts] at hs
    subst hs
    simp [inCursorCS, inPagesCS, pendingInc, holds, prefetch, pageOf, prefetchOf, pendingPage,
      retired] at h1 h2 h4 h7 h8 h9 h10
    constructor <;> simp [wsum_set hi, mem_set_split hi, inCursorCS, inPagesCS, pendingInc, holds,
      prefetch, pageOf, prefetchOf, pendingPage, retired]
    all_goals first
      | assumption
      | omega
      | exact ⟨by simp [tmpOk], h5'⟩
      | exact ⟨by simp [batchOk], h6'⟩
  | incStore page tmp =>
    simp [getContacts] at hs
    subst hs
    simp [inCursorCS, inPagesCS, pendingInc, holds, prefetch, pageOf, prefetchOf, pendingPage,
      retired] at h1 h2 h4 h7 h8 h9 h10
    have hz : wsum inCursorCS (s.workers.eraseIdx i) = 0 := by
      split at h1 <;> omega
    have ht : tmp = s.state.nextPage := by simpa [tmpOk] using h5i
    constructor <;> simp [wsum_set hi, mem_set_split hi, inCursorCS, inPagesCS, pendingInc, holds,
      prefetch, pageOf, prefetchOf, pendingPage, retired]
    case tmp =>
      exact ⟨by simp [tmpOk], fun a ha => tmpOk_of_cursor (h5' a ha) (wsum_eq_zero hz a ha)⟩
    all_goals first
      | assumption
      | omega
      | exact ⟨by simp [batchOk], h6'⟩
  | unlockCursor page =>
    by_cases hm : s.state.nextPageMutex = true
    · simp [getContacts, hm] at hs
      subst hs
      simp [inCursorCS, inPagesCS, pendingInc, holds, prefetch, pageOf, prefetchOf, pendingPage,
        retired, hm] at h1 h2 h4 h7 h8 h9 h10
      constructor <;> simp [wsum_set hi, mem_set_split hi, inCursorCS, inPagesCS, pendingInc,
        holds, prefetch, pageOf, prefetchOf, pendingPage, retired]
      all_goals first
        | assumption
        | omega
        | exact ⟨by simp [tmpOk], h5'⟩
        | exact ⟨by simp [batchOk], h6'⟩
    · simp [getContacts, hm] at hs
      subst hs
      exact core_congr h rfl rfl rfl rfl rfl rfl rfl
  | fetching page =>
    cases hf : _getContacts env.upstream page with
    | error e =>
      simp [getContacts, hf] at hs
      subst hs
      exact core_congr h rfl rfl rfl rfl rfl rfl rfl
    | ok cs =>
      by_cases hl : cs = []
      · simp [getContacts, hf, hl] at hs
        subst hs
        have hne : nonEmptyPage env page = false := nonEmptyPage_false hf hl
        simp [inCursorCS, inPagesCS, pendingInc, holds, prefetch, pageOf, prefetchOf, pendingPage,
          retired] at h1 h2 h4 h7 h8 h9 h10
        constructor <;> simp [wsum_set hi, mem_set_split hi, inCursorCS, inPagesCS, pendingInc,
          holds, prefetch, pageOf, prefetchOf, pendingPage, retired, hne]
        all_goals first
          | assumption
          | omega
          | (intro p; have a := h7 p; simp only [List.count_singleton, beq_iff_eq]; omega)
          | (intro p; have a := h8 p; split at a <;> omega)
          | exact ⟨by simp [tmpOk], h5'⟩
          | exact ⟨by simp [batchOk], h6'⟩
      · simp [getContacts, hf, hl] at hs
        subst hs
        have hne : nonEmptyPage env page = true := nonEmptyPage_true hf hl
        simp [inCursorCS, inPagesCS, pendingInc, holds, prefetch, pageOf, prefetchOf, pendingPage,
          retired] at h1 h2 h4 h7 h8 h9 h10
        constructor <;> simp [wsum_set hi, mem_set_split hi, inCursorCS, inPagesCS, pendingInc,
          holds, prefetch, pageOf, prefetchOf, pendingPage, retired, hne]
        all_goals first
          | assumption
          | omega
          | (intro p; have a := h7 p; simp only [List.count_singleton, beq_iff_eq]; omega)
          | exact ⟨by simp [tmpOk], h5'⟩
          | exact ⟨by simp [batchOk, hf, hl], h6'⟩

  | lockPages page cs =>
    simp [getContacts] at hs
    obtain ⟨hm, rfl⟩ := hs
    simp [inCursorCS, inPagesCS, pendingInc, holds, prefetch, pageOf, prefetchOf, pendingPage,
      retired, hm] at h1 h2 h4 h7 h8 h9 h10
    constructor <;> simp [wsum_set hi, mem_set_split hi, inCursorCS, inPagesCS, pendingInc, holds,
      prefetch, pageOf, prefetchOf, pendingPage, retired]
    all_goals first
      | assumption
      | omega
      | exact ⟨by simp [tmpOk], h5'⟩
      | exact ⟨by simpa [batchOk] using h6i, h6'⟩
  | loadPages page cs =>
    simp [getContacts] at hs
    subst hs
    simp [inCursorCS, inPagesCS, pendingInc, holds, prefetch, pageOf, prefetchOf, pendingPage,
      retired] at h1 h2 h4 h7 h8 h9 h10
    constructor <;> simp [wsum_set hi, mem_set_split hi, inCursorCS, inPagesCS, pendingInc, holds,
      prefetch, pageOf, prefetchOf, pendingPage, retired]
    all_goals first
      | assumption
      | omega
      | exact ⟨by simp [tmpOk], h5'⟩
      | exact ⟨by simpa [batchOk] using h6i, h6'⟩
  | storePages page cs tmp =>
    simp [getContacts] at hs
    subst hs
    simp [inCursorCS, inPagesCS, pendingInc, holds, prefetch, pageOf, prefetchOf, pendingPage,
      retired] at h1 h2 h4 h7 h8 h9 h10
    have hz : wsum inPagesCS (s.workers.eraseIdx i) = 0 := by
      split at h2 <;> omega
    have ht : tmp = s.state.totalPages := by simpa [tmpOk] using h5i
    constructor <;> simp [wsum_set hi, mem_set_split hi, inCursorCS, inPagesCS, pendingInc, holds,
      prefetch, pageOf, prefetchOf, pendingPage, retired]
    case tmp =>
      exact ⟨by simp [tmpOk], fun a ha => tmpOk_of_pages (h5' a ha) (wsum_eq_zero hz a ha)⟩
    all_goals first
      | assumption
      | omega
      | exact ⟨by simpa [batchOk] using h6i, h6'⟩
  | unlockPages page cs =>
    by_cases hm : s.state.totalPagesMutex = true
    · simp [getContacts, hm] at hs
      subst hs
      simp [inCursorCS, inPagesCS, pendingInc, holds, prefetch, pageOf, prefetchOf, pendingPage,
        retired, hm] at h1 h2 h4 h7 h8 h9 h10
      constructor <;> simp [wsum_set hi, mem_set_split hi, inCursorCS, inPagesCS, pendingInc,
        holds, prefetch, pageOf, prefetchOf, pendingPage, retired]
      all_goals first
        | assumption
        | omega
        | exact ⟨by simp [tmpOk], h5'⟩
        | exact ⟨by simpa [batchOk] using h6i, h6'⟩
    · simp [getContacts, hm] at hs
      subst hs
      exact core_congr h rfl rfl rfl rfl rfl rfl rfl
  | emitting page cs k =>
    cases hk : cs[k]? with
    | none =>
      simp [getContacts, hk] at hs
      subst hs
      simp [inCursorCS, inPagesCS, pendingInc, holds, prefetch, pageOf, prefetchOf, pendingPage,
        retired] at h1 h2 h4 h7 h8 h9 h10
      constructor <;> simp [wsum_set hi, mem_set_split hi, inCursorCS, inPagesCS, pendingInc,
        holds, prefetch, pageOf, prefetchOf, pendingPage, retired]
      case holdsCount =>
        intro p
        have a := h8 p
        split at a <;> omega
      all_goals first
        | assumption
        | omega
        | exact ⟨by simp [tmpOk], h5'⟩
        | exact ⟨by simp [batchOk], h6'⟩
    | some c =>
      by_cases hc : s.ch.closed = true
      · simp [getContacts, hk, hc] at hs
        subst hs
        exact core_congr h rfl rfl rfl rfl rfl rfl rfl
      · by_cases hb : s.ch.buf.length < env.capacity
        · simp [getContacts, hk, hc, hb] at hs
          subst hs
          simp [inCursorCS, inPagesCS, pendingInc, holds, prefetch, pageOf, prefetchOf,
            pendingPage, retired] at h1 h2 h4 h7 h8 h9 h10
          constructor <;> simp [wsum_set hi, mem_set_split hi, inCursorCS, inPagesCS, pendingInc,
            holds, prefetch, pageOf, prefetchOf, pendingPage, retired]
          all_goals first
            | assumption
            | omega
            | exact ⟨by simp [tmpOk], h5'⟩
            | exact ⟨by simpa [batchOk] using h6i, h6'⟩
        · simp [getContacts, hk, hc, hb] at hs
  | returned =>
    by_cases hw : s.wg = 0
    · simp [getContacts, hw] at hs
      subst hs
      exact core_congr h rfl rfl rfl rfl rfl rfl rfl
    · simp [getContacts, hw] at hs
      subst hs
      simp [inCursorCS, inPagesCS, pendingInc, holds, prefetch, pageOf, prefetchOf, pendingPage,
        retired] at h1 h2 h4 h7 h8 h9 h10
      constructor <;> simp [wsum_set hi, mem_set_split hi, inCursorCS, inPagesCS, pendingInc,
        holds, prefetch, pageOf, prefetchOf, pendingPage, retired]
      all_goals first
        | assumption
        | omega
        | exact ⟨by simp [tmpOk], h5'⟩
        | exact ⟨by simp [batchOk], h6'⟩
  | done => simp [getContacts] at hs

theorem core_main {env : Env} {s s' : State} (h : Core env s)
    (hs : crawlContacts env s = some s') : Core env s' := by
  unfold crawlContacts at hs
  split at hs
  · split at hs <;> simp at hs <;> subst hs <;> exact core_congr h rfl rfl rfl rfl rfl rfl rfl
  · simp at hs
    subst hs
    obtain ⟨h1, h2, h3, h4, h5, h6, h7, h8, h9, h10⟩ := h
    constructor <;> simp [wsum_append, inCursorCS, inPagesCS, pendingInc, holds, prefetch, pageOf,
      prefetchOf, pendingPage, retired]
    all_goals first
      | assumption
      | (intro w hw; rcases hw with hw | rfl
         · first | exact h5 w hw | exact h6 w hw
         · simp [tmpOk, batchOk])
  · simp at hs; subst hs; exact core_congr h rfl rfl rfl rfl rfl rfl rfl
  · split at hs
    · simp at hs; subst hs; exact core_congr h rfl rfl rfl rfl rfl rfl rfl
    · split at hs <;> simp at hs
      subst hs; exact core_congr h rfl rfl rfl rfl rfl rfl rfl
  · split at hs <;> simp at hs <;> subst hs <;> exact core_congr h rfl rfl rfl rfl rfl rfl rfl
  · simp at hs; subst hs; exact core_congr h rfl rfl rfl rfl rfl rfl rfl
  · simp at hs; subst hs; exact core_congr h rfl rfl rfl rfl rfl rfl rfl
  · simp at hs

theorem core_closer {env : Env} {s s' : State} (h : Core env s)
    (hs : closerStep s = some s') : Core env s' := by
  unfold closerStep at hs
  split at hs
  · simp at hs
  · split at hs <;> simp at hs
    subst hs; exact core_congr h rfl rfl rfl rfl rfl rfl rfl
  · split at hs <;> simp at hs <;> subst hs <;> exact core_congr h rfl rfl rfl rfl rfl rfl rfl
  · simp at hs

/-- Unfolding of `step` into the goroutine that moved. -/
theorem step_cases {env : Env} {s s' : State} {t : Tid} (hs : step env s t = some s') :
    s.status = .running ∧ s.main ≠ .returned ∧
    ((t = .main ∧ crawlContacts env s = some s') ∨
     (t = .closer ∧ closerStep s = some s') ∨
     (∃ i pc, t = .worker i ∧ s.workers[i]? = some pc ∧ getContacts env s i pc = some s')) := by
  unfold step at hs
  split at hs
  · rename_i hc
    refine ⟨hc.1, hc.2, ?_⟩
    cases t with
    | main => exact Or.inl ⟨rfl, hs⟩
    | closer => exact Or.inr (Or.inl ⟨rfl, hs⟩)
    | worker i =>
      simp only at hs
      split at hs
      · simp at hs
      · rename_i pc hpc
        exact Or.inr (Or.inr ⟨i, pc, rfl, hpc, hs⟩)
  · simp at hs

theorem core_step {env : Env} {s s' : State} {t : Tid} (h : Core env s)
    (hs : step env s t = some s') : Core env s' := by
  obtain ⟨-, -, hm | hc | ⟨i, pc, -, hi, hw⟩⟩ := step_cases hs
  · exact core_main h hm.2
  · exact core_closer h hc.2
  · exact core_worker h hi hw

/-- An invariant of `step` that holds initially holds in every reachable state. -/
theorem reachable_induction {env : Env} {P : State → Prop} (h0 : P init)
    (hstep : ∀ s s' t, Reachable env s → P s → step env s t = some s' → P s')
    {s : State} (hr : Reachable env s) : P s := by
  obtain ⟨sched, hrun⟩ := hr
  have key : ∀ (sched : List Tid) (s0 s1 : State), Reachable env s0 → P s0 →
      runFrom env s0 sched = some s1 → P s1 := by
    intro sched
    induction sched with
    | nil =>
      intro s0 s1 _ hp hrun
      simp [runFrom] at hrun
      subst hrun
      exact hp
    | cons t rest ih =>
      intro s0 s1 hr0 hp hrun
      simp only [runFrom] at hrun
      cases hst : step env s0 t with
      | none => simp [hst] at hrun
      | some s2 =>
        simp [hst] at hrun
        refine ih s2 s1 ?_ (hstep s0 s2 t hr0 hp hst) hrun
        obtain ⟨sch0, h0⟩ := hr0
        refine ⟨sch0 ++ [t], ?_⟩
        clear ih hrun hp
        have app : ∀ (l : List Tid) (a b : State), runFrom env a l = some b →
            runFrom env a (l ++ [t]) = step env b t := by
          intro l
          induction l with
          | nil =>
            intro a b hab
            simp [runFrom] at hab
            subst hab
            simp only [List.nil_append, runFrom]
            cases step env a t <;> rfl
          | cons x xs ihx =>
            intro a b hab
            simp only [List.cons_append, runFrom] at hab ⊢
            cases hx : step env a x with
            | none => simp [hx] at hab
            | some a' =>
              simp only [hx] at hab ⊢
              exact ihx a' b hab
        rw [app sch0 init s0 h0, hst]
  exact key sched init s ⟨[], rfl⟩ h0 hrun

theorem core_reachable {env : Env} {s : State} (hr : Reachable env s) : Core env s :=
  reachable_induction (core_init env) (fun _ _ _ _ hp hs => core_step hp hs) hr

/-! ## The termination protocol -/

theorem isDone_le (w : WorkerPC) : isDone w ≤ 1 := by
  cases w <;> simp [isDone]

theorem proto_init (env : Env) : Proto env init := by
  constructor <;> simp [init, wsum, spawned, spawnOk, added, beforeCloser, afterLoop, pastWait]

theorem proto_congr {env : Env} {s s' : State} (h : Proto env s)
    (e1 : s'.workers.length = s.workers.length)
    (e2 : wsum isDone s'.workers = wsum isDone s.workers)
    (e3 : s'.main = s.main) (e4 : s'.wg = s.wg) (e5 : s'.closer = s.closer)
    (e6 : s'.ch = s.ch) (e7 : s'.closes = s.closes) (e8 : s'.status = s.status) :
    Proto env s' := by
  obtain ⟨h1, h2, h3, h4, h5, h6, h7, h8, h9, h10⟩ := h
  constructor <;> simp only [e1, e2, e3, e4, e5, e6, e7, e8] <;> assumption

/-- A worker that has not ended keeps the wait-group counter positive. -/
theorem wg_pos_of_live {env : Env} {s : State} (h : Proto env s) {i : Nat} {pc : WorkerPC}
    (hi : s.workers[i]? = some pc) (hpc : isDone pc = 0) : 0 < s.wg := by
  have h1 := h.spawnedLen
  have h3 := h.wgCount
  have h2 := h.bound
  rw [wsum_split hi, hpc] at h3
  have hl := wsum_le_length isDone_le (s.workers.eraseIdx i)
  have hlen := length_eraseIdx_add_one hi
  have : spawned env.concurrency s.main ≤ added env.concurrency s.main := by
    cases s.main <;> simp [spawned, added]
  omega

/-- Once the channel is closed or about to be, every worker has ended. -/
theorem all_done_of_pastWait {env : Env} {s : State} (h : Proto env s)
    (hp : pastWait s.closer = true) :
    s.workers.length = env.concurrency ∧ ∀ w ∈ s.workers, w = .done := by
  have hw := h.closerWg hp
  have h1 := h.spawnedLen
  have h3 := h.wgCount
  have h4 := h.closerStart
  have hb : beforeCloser s.main = false := by
    cases hb : beforeCloser s.main with
    | false => rfl
    | true =>
      have := h4.2 hb
      rw [this] at hp
      simp [pastWait] at hp
  have e1 : spawned env.concurrency s.main = env.concurrency := by
    cases hm : s.main <;> simp [hm, beforeCloser, spawned] at hb ⊢
  have e2 : added env.concurrency s.main = env.concurrency := by
    cases hm : s.main <;> simp [hm, beforeCloser, added] at hb ⊢
  refine ⟨by omega, ?_⟩
  intro w hmem
  have := wsum_eq_length isDone_le (l := s.workers) (by omega) w hmem
  cases w <;> simp [isDone] at this ⊢

theorem proto_worker {env : Env} {s s' : State} {i : Nat} {pc : WorkerPC}
    (hc : Core env s) (h : Proto env s) (hi : s.workers[i]? = some pc)
    (hs : getContacts env s i pc = some s') : Proto env s' := by
  cases pc with
  | lockCursor =>
    simp [getContacts] at hs
    obtain ⟨hm, rfl⟩ := hs
    exact proto_congr h (by simp) (by simp [wsum_set hi, wsum_split hi, isDone]) rfl rfl rfl rfl rfl rfl
  | readCursor =>
    simp [getContacts] at hs
    subst hs
    exact proto_congr h (by simp) (by simp [wsum_set hi, wsum_split hi, isDone]) rfl rfl rfl rfl rfl rfl
  | incLoad page =>
    simp [getContacts] at hs
    subst hs
    exact proto_congr h (by simp) (by simp [wsum_set hi, wsum_split hi, isDone]) rfl rfl rfl rfl rfl rfl
  | incStore page tmp =>
    simp [getContacts] at hs
    subst hs
    exact proto_congr h (by simp) (by simp [wsum_set hi, wsum_split hi, isDone]) rfl rfl rfl rfl rfl rfl
  | unlockCursor page =>
    have h1 := hc.cursorMutex
    rw [wsum_split hi] at h1
    by_cases hm : s.state.nextPageMutex = true
    · simp [getContacts, hm] at hs
      subst hs
      exact proto_congr h (by simp) (by simp [wsum_set hi, wsum_split hi, isDone]) rfl rfl rfl rfl rfl rfl
    · simp [hm, inCursorCS] at h1
  | fetching page =>
    cases hf : _getContacts env.upstream page with
    | error e =>
      simp [getContacts, hf] at hs
      subst hs
      obtain ⟨h1, h2, h3, h4, h5, h6, h7, h8, h9, h10⟩ := h
      constructor <;> first | assumption | simp
    | ok cs =>
      by_cases hl : cs = []
      · simp [getContacts, hf, hl] at hs
        subst hs
        exact proto_congr h (by simp) (by simp [wsum_set hi, wsum_split hi, isDone]) rfl rfl rfl rfl rfl rfl
      · simp [getContacts, hf, hl] at hs
        subst hs
        exact proto_congr h (by simp) (by simp [wsum_set hi, wsum_split hi, isDone]) rfl rfl rfl rfl rfl rfl
  | lockPages page cs =>
    simp [getContacts] at hs
    obtain ⟨hm, rfl⟩ := hs
    exact proto_congr h (by simp) (by simp [wsum_set hi, wsum_split hi, isDone]) rfl rfl rfl rfl rfl rfl
  | loadPages page cs =>
    simp [getContacts] at hs
    subst hs
    exact proto_congr h (by simp) (by simp [wsum_set hi, wsum_split hi, isDone]) rfl rfl rfl rfl rfl rfl
  | storePages page cs tmp =>
    simp [getContacts] at hs
    subst hs
    exact proto_congr h (by simp) (by simp [wsum_set hi, wsum_split hi, isDone]) rfl rfl rfl rfl rfl rfl
  | unlockPages page cs =>
    have h1 := hc.pagesMutex
    rw [wsum_split hi] at h1
    by_cases hm : s.state.totalPagesMutex = true
    · simp [getContacts, hm] at hs
      subst hs
      exact proto_congr h (by simp) (by simp [wsum_set hi, wsum_split hi, isDone]) rfl rfl rfl rfl rfl rfl
    · simp [hm, inPagesCS] at h1
  | emitting page cs k =>
    cases hk : cs[k]? with
    | none =>
      simp [getContacts, hk] at hs
      subst hs
      exact proto_congr h (by simp) (by simp [wsum_set hi, wsum_split hi, isDone]) rfl rfl rfl rfl rfl rfl
    | some c =>
      by_cases hcl : s.ch.closed = true
      · have hfin := h.closedIff.1 hcl
        have := (all_done_of_pastWait h (by simp [hfin, pastWait])).2 _
          ((mem_split hi _).2 (Or.inl rfl))
        simp at this
      · by_cases hb : s.ch.buf.length < env.capacity
        · simp [getContacts, hk, hcl, hb] at hs
          subst hs
          have hcl' : s.ch.closed = false := by simpa using hcl
          obtain ⟨h1, h2, h3, h4, h5, h6, h7, h8, h9, h10⟩ := h
          constructor <;> simp [wsum_set hi, isDone, hcl'] 
          all_goals first
            | assumption
            | omega
            | (simp [wsum_split hi, isDone] at h3; assumption)
            | (simpa [hcl'] using h5)
            | (simpa [hcl'] using h6)
            | (cases hx : afterLoop s.main with
               | false => rfl
               | true => have := h8 hx; simp [hcl'] at this)
        · simp [getContacts, hk, hcl, hb] at hs
  | returned =>
    have hpos := wg_pos_of_live h hi (by simp [isDone])
    by_cases hw : s.wg = 0
    · omega
    · simp [getContacts, hw] at hs
      subst hs
      obtain ⟨h1, h2, h3, h4, h5, h6, h7, h8, h9, h10⟩ := h
      constructor <;> simp [wsum_set hi, isDone]
      all_goals first
        | assumption
        | (simp [wsum_split hi, isDone] at h3; omega)
        | (intro hx; have := h7 hx; omega)
  | done => simp [getContacts] at hs

theorem proto_main {env : Env} {s s' : State} (h : Proto env s)
    (hs : crawlContacts env s = some s') : Proto env s' := by
  obtain ⟨h1, h2, h3, h4, h5, h6, h7, h8, h9, h10⟩ := h
  unfold crawlContacts at hs
  cases hm : s.main with
  | spawnLoop i =>
    simp only [hm] at hs
    simp only [hm, spawned, spawnOk, added, beforeCloser, afterLoop] at h1 h2 h3 h4 h8
    have hn : s.closer = .notStarted := h4.2 trivial
    by_cases hi : i < env.concurrency
    · simp [hi] at hs
      subst hs
      constructor <;> simp [spawned, spawnOk, added, beforeCloser, afterLoop, hn, pastWait]
      all_goals first
        | assumption
        | omega
        | simpa [hn] using h5
    · simp [hi] at hs
      subst hs
      constructor <;> simp [spawned, spawnOk, added, beforeCloser, afterLoop, hn, pastWait]
      all_goals first
        | assumption
        | omega
        | simpa [hn] using h5
  | goWorker i =>
    simp only [hm] at hs
    simp only [hm, spawned, spawnOk, added, beforeCloser, afterLoop] at h1 h2 h3 h4 h8
    have hn : s.closer = .notStarted := h4.2 trivial
    simp at hs
    subst hs
    constructor <;> simp [spawned, spawnOk, added, beforeCloser, afterLoop, hn, pastWait,
      wsum_append, isDone]
    all_goals first
      | assumption
      | omega
      | simpa [hn] using h5
  | goCloser =>
    simp only [hm] at hs
    simp only [hm, spawned, spawnOk, added, beforeCloser, afterLoop] at h1 h2 h3 h4 h8
    have hn : s.closer = .notStarted := h4.2 trivial
    simp at hs
    subst hs
    constructor <;> simp [spawned, spawnOk, added, beforeCloser, afterLoop, hn, pastWait]
    all_goals first
      | assumption
      | omega
      | simpa [hn] using h5
  | recv =>
    simp only [hm] at hs
    simp only [hm, spawned, spawnOk, added, beforeCloser, afterLoop] at h1 h2 h3 h4 h8
    cases hb : s.ch.buf with
    | nil =>
      simp only [hb] at hs
      by_cases hcl : s.ch.closed = true
      · simp [hcl] at hs
        subst hs
        constructor <;> simp [spawned, spawnOk, added, beforeCloser, afterLoop, hm]
        all_goals first
          | assumption
          | omega
          | simpa using h4
          | exact ⟨hcl, hb⟩
      · simp [hcl] at hs
    | cons x rest =>
      obtain ⟨page, contact⟩ := x
      simp only [hb] at hs
      simp at hs
      subst hs
      simp [hb] at h9
      constructor <;> simp [spawned, spawnOk, added, beforeCloser, afterLoop, hm]
      all_goals first
        | assumption
        | omega
        | simpa using h4
  | write page contact =>
    simp only [hm] at hs
    simp only [hm, spawned, spawnOk, added, beforeCloser, afterLoop] at h1 h2 h3 h4 h8
    cases hw : writeContact (env.sink s.written.length contact) s.database contact env.epoch with
    | returned db =>
      simp [hw] at hs
      subst hs
      constructor <;> simp [spawned, spawnOk, added, beforeCloser, afterLoop, hm]
      all_goals first
        | assumption
        | omega
        | simpa using h4
    | panicked =>
      simp [hw] at hs
      subst hs
      constructor <;> simp [spawned, spawnOk, added, beforeCloser, afterLoop, hm]
      all_goals first
        | assumption
        | omega
        | simpa using h4
    | hangs => simp [hw] at hs
  | count =>
    simp only [hm] at hs
    simp only [hm, spawned, spawnOk, added, beforeCloser, afterLoop] at h1 h2 h3 h4 h8
    simp at hs
    subst hs
    constructor <;> simp [spawned, spawnOk, added, beforeCloser, afterLoop, hm]
    all_goals first
      | assumption
      | omega
      | simpa using h4
  | print =>
    simp only [hm] at hs
    simp only [hm, spawned, spawnOk, added, beforeCloser, afterLoop] at h1 h2 h3 h4 h8
    simp at hs
    subst hs
    constructor <;> simp [spawned, spawnOk, added, beforeCloser, afterLoop, hm]
    all_goals first
      | assumption
      | omega
      | simpa using h4
      | exact h8 trivial
  | returned =>
    simp [hm] at hs

theorem proto_closer {env : Env} {s s' : State} (h : Proto env s)
    (hs : closerStep s = some s') : Proto env s' := by
  obtain ⟨h1, h2, h3, h4, h5, h6, h7, h8, h9, h10⟩ := h
  unfold closerStep at hs
  cases hm : s.closer with
  | notStarted => simp [hm] at hs
  | waiting =>
    simp only [hm] at hs
    simp only [hm, pastWait] at h4 h5 h7
    by_cases hw : s.wg = 0
    · simp [hw] at hs
      subst hs
      constructor <;> simp [pastWait]
      all_goals first
        | assumption
        | omega
        | simpa using h4
        | simpa using h5
    · simp [hw] at hs
  | closing =>
    simp only [hm] at hs
    simp only [hm, pastWait] at h4 h5 h7
    have hcl : s.ch.closed = false := by simpa using h5
    simp [hcl] at hs
    subst hs
    simp [hcl] at h6 h8
    constructor <;> simp [pastWait]
    all_goals first
      | assumption
      | omega
      | simpa using h4
      | exact h7 trivial
      | (intro hx; simp [hx] at h8)
  | finished => simp [hm] at hs

theorem proto_step {env : Env} {s s' : State} {t : Tid} (hc : Core env s) (h : Proto env s)
    (hs : step env s t = some s') : Proto env s' := by
  obtain ⟨-, -, hm | hcl | ⟨i, pc, -, hi, hw⟩⟩ := step_cases hs
  · exact proto_main h hm.2
  · exact proto_closer h hcl.2
  · exact proto_worker hc h hi hw

theorem proto_reachable {env : Env} {s : State} (hr : Reachable env s) : Proto env s :=
  reachable_induction (proto_init env)
    (fun _ _ _ hr0 hp hs => proto_step (core_reachable hr0) hp hs) hr

/-! ## The records in flight -/

theorem pushedOf_append (l : List (Nat × Contact)) (q : Nat) (c : Contact) (p : Nat) :
    pushedOf (l ++ [(q, c)]) p = pushedOf l p ++ (if q = p then [c] else []) := by
  unfold pushedOf
  by_cases h : q = p <;> simp [List.filter_cons, h]

theorem recs_init (env : Env) : Recs env init := by
  constructor <;> simp [init, wsum, inHand, uncounted, pushedOf]

theorem count_claimed_le {env : Env} {s : State} (h : Core env s) (p : Nat) :
    s.claimed.count p ≤ 1 := by
  rw [h.claimedRange, count_range']
  split <;> omega

/-- At line 74 the page about to be read has never been claimed. -/
theorem core_fresh {env : Env} {s : State} (h : Core env s) {i : Nat}
    (hi : s.workers[i]? = some .readCursor) : s.claimed.count s.state.nextPage = 0 := by
  have h1 := h.cursorMutex
  have h4 := h.cursor
  rw [wsum_split hi] at h1 h4
  simp [inCursorCS, pendingInc] at h1 h4
  have hz : wsum inCursorCS (s.workers.eraseIdx i) = 0 := by
    split at h1 <;> omega
  have hz' := wsum_le_of_le pendingInc_le (s.workers.eraseIdx i)
  rw [h.claimedRange, count_range', if_neg]
  simp
  omega

/-- Two workers never hold the same page. -/
theorem core_others_free {env : Env} {s : State} (h : Core env s) {i : Nat} {pc : WorkerPC}
    (hi : s.workers[i]? = some pc) {p : Nat} (hp : pageOf pc = some p) :
    wsum (holds p) (s.workers.eraseIdx i) = 0 ∧ s.claimed.count p = 1 := by
  have h8 := h.holdsCount p
  have := count_claimed_le h p
  rw [wsum_split hi] at h8
  simp [holds, hp] at h8
  omega

theorem holds_eq_zero {p : Nat} {w : WorkerPC} (h : holds p w = 0) : pageOf w ≠ some p := by
  intro hp
  simp [holds, hp] at h

theorem recs_silent {env : Env} {s s' : State} (h : Recs env s) {i : Nat} {pc b : WorkerPC}
    (hi : s.workers[i]? = some pc) (hw : s'.workers = s.workers.set i b)
    (e1 : pageOf b = pageOf pc) (e2 : sent b = sent pc) (e3 : remaining b = remaining pc)
    (hp : s'.pushed = s.pushed)
    (hf : s'.fetched = s.fetched) (hwr : s'.written = s.written) (hm : s'.main = s.main)
    (hch : s'.ch = s.ch) (ht : s'.state.totalRecords = s.state.totalRecords) :
    Recs env s' := by
  obtain ⟨h1, h2, h3, h4, h5⟩ := h
  constructor
  · rw [hwr, hm, hch, hp]; exact h1
  · rw [ht, hm, hwr]; exact h2
  · intro c
    rw [hp, hf, hw, wsum_set hi, e3, ← wsum_split hi]
    exact h3 c
  · intro w hmem p hpage
    rw [hw, mem_set_split hi] at hmem
    rw [hp]
    rcases hmem with rfl | hmem
    · rw [e2]
      exact h4 pc ((mem_split hi _).2 (Or.inl rfl)) p (e1 ▸ hpage)
    · exact h4 w ((mem_split hi _).2 (Or.inr hmem)) p hpage
  · intro p hz
    rw [hp, hf]
    apply h5
    rw [hw, wsum_set hi] at hz
    rw [wsum_split hi]
    simpa [holds, e1] using hz

theorem recs_congr {env : Env} {s s' : State} (h : Recs env s)
    (hw : s'.workers = s.workers) (hp : s'.pushed = s.pushed)
    (hf : s'.fetched = s.fetched) (hwr : s'.written = s.written) (hm : s'.main = s.main)
    (hch : s'.ch = s.ch) (ht : s'.state.totalRecords = s.state.totalRecords) :
    Recs env s' := by
  obtain ⟨h1, h2, h3, h4, h5⟩ := h
  constructor <;> simp only [hw, hp, hf, hwr, hm, hch, ht] <;> assumption

theorem recs_worker {env : Env} {s s' : State} {i : Nat} {pc : WorkerPC}
    (hc : Core env s) (h : Recs env s) (hi : s.workers[i]? = some pc)
    (hs : getContacts env s i pc = some s') : Recs env s' := by
  cases pc with
  | lockCursor =>
    simp [getContacts] at hs
    obtain ⟨hm, rfl⟩ := hs
    exact recs_silent h hi rfl rfl rfl rfl rfl rfl rfl rfl rfl rfl
  | readCursor =>
    simp [getContacts] at hs
    subst hs
    have hfresh := core_fresh hc hi
    have h7 := hc.fetchedCount s.state.nextPage
    have h8 := hc.holdsCount s.state.nextPage
    obtain ⟨h1, h2, h3, h4, h5⟩ := h
    have hz : wsum (holds s.state.nextPage) s.workers = 0 := by omega
    have hnf : s.state.nextPage ∉ s.fetched := by
      intro hmem
      have := List.count_pos_iff.2 hmem
      omega
    have hnil := h5 _ hz
    rw [if_neg hnf] at hnil
    constructor
    · exact h1
    · exact h2
    · intro c
      have := h3 c
      rw [wsum_split hi] at this
      simpa [wsum_set hi, remaining] using this
    · intro w hmem p hpage
      simp only [mem_set_split hi] at hmem
      rcases hmem with rfl | hmem
      · simp [pageOf] at hpage
        subst hpage
        simpa [sent] using hnil
      · exact h4 w ((mem_split hi _).2 (Or.inr hmem)) p hpage
    · intro p hz'
      apply h5
      simp only [wsum_set hi] at hz'
      rw [wsum_split hi]
      simp [holds, pageOf] at hz' ⊢
      exact hz'.1
  | incLoad page =>
    simp [getContacts] at hs
    subst hs
    exact recs_silent h hi rfl rfl rfl rfl rfl rfl rfl rfl rfl rfl
  | incStore page tmp =>
    simp [getContacts] at hs
    subst hs
    exact recs_silent h hi rfl rfl rfl rfl rfl rfl rfl rfl rfl rfl
  | unlockCursor page =>
    by_cases hm : s.state.nextPageMutex = true
    · simp [getContacts, hm] at hs
      subst hs
      exact recs_silent h hi rfl rfl rfl rfl rfl rfl rfl rfl rfl rfl
    · simp [getContacts, hm] at hs
      subst hs
      exact recs_congr h rfl rfl rfl rfl rfl rfl rfl
  | fetching page =>
    cases hf : _getContacts env.upstream page with
    | error e =>
      simp [getContacts, hf] at hs
      subst hs
      exact recs_congr h rfl rfl rfl rfl rfl rfl rfl
    | ok cs =>
      have hb := batch_of_ok hf
      obtain ⟨hfree, hcl⟩ := core_others_free hc hi (p := page) rfl
      have h7 := hc.fetchedCount page
      rw [wsum_split hi] at h7
      simp [prefetch, prefetchOf] at h7
      have hnf : page ∉ s.fetched := by
        intro hmem
        have := List.count_pos_iff.2 hmem
        omega
      obtain ⟨h1, h2, h3, h4, h5⟩ := h
      have hmine := h4 _ ((mem_split hi _).2 (Or.inl rfl)) page rfl
      simp only [sent] at hmine
      by_cases hl : cs = []
      · simp [getContacts, hf, hl] at hs
        subst hs
        constructor
        · exact h1
        · exact h2
        · intro c
          have := h3 c
          rw [wsum_split hi] at this
          simpa [wsum_set hi, remaining, hb, hl] using this
        · intro w hmem p hpage
          simp only [mem_set_split hi] at hmem
          rcases hmem with rfl | hmem
          · simp [pageOf] at hpage
          · exact h4 w ((mem_split hi _).2 (Or.inr hmem)) p hpage
        · intro p hz'
          simp only [wsum_set hi] at hz'
          simp [holds, pageOf] at hz'
          by_cases hp : p = page
          · subst hp
            simp [hb, hl, hmine]
          · have := h5 p (by rw [wsum_split hi]; simp [holds, pageOf, hz', Ne.symm hp])
            simpa [hp] using this
      · simp [getContacts, hf, hl] at hs
        subst hs
        constructor
        · exact h1
        · exact h2
        · intro c
          have := h3 c
          rw [wsum_split hi] at this
          simp [wsum_set hi, remaining, hb] at this ⊢
          omega
        · intro w hmem p hpage
          simp only [mem_set_split hi] at hmem
          rcases hmem with rfl | hmem
          · simp [pageOf] at hpage
            subst hpage
            simpa [sent] using hmine
          · exact h4 w ((mem_split hi _).2 (Or.inr hmem)) p hpage
        · intro p hz'
          simp only [wsum_set hi] at hz'
          simp [holds, pageOf] at hz'
          have hp : p ≠ page := fun e => hz'.2 e.symm
          have := h5 p (by rw [wsum_split hi]; simp [holds, pageOf, hz'.1, Ne.symm hp])
          simpa [hp] using this
  | lockPages page cs =>
    simp [getContacts] at hs
    obtain ⟨hm, rfl⟩ := hs
    exact recs_silent h hi rfl rfl rfl rfl rfl rfl rfl rfl rfl rfl
  | loadPages page cs =>
    simp [getContacts] at hs
    subst hs
    exact recs_silent h hi rfl rfl rfl rfl rfl rfl rfl rfl rfl rfl
  | storePages page cs tmp =>
    simp [getContacts] at hs
    subst hs
    exact recs_silent h hi rfl rfl rfl rfl rfl rfl rfl rfl rfl rfl
  | unlockPages page cs =>
    by_cases hm : s.state.totalPagesMutex = true
    · simp [getContacts, hm] at hs
      subst hs
      exact recs_silent h hi rfl rfl (by simp [sent]) (by simp [remaining]) rfl rfl rfl rfl rfl rfl
    · simp [getContacts, hm] at hs
      subst hs
      exact recs_congr h rfl rfl rfl rfl rfl rfl rfl
  | emitting page cs k =>
    obtain ⟨hfree, hcl⟩ := core_others_free hc hi (p := page) rfl
    have hbk := hc.batches _ ((mem_split hi _).2 (Or.inl rfl))
    simp only [batchOk] at hbk
    have hb := batch_of_ok hbk.1
    have h7 := hc.fetchedCount page
    rw [wsum_split hi] at h7
    simp [prefetch, prefetchOf] at h7
    have hle := wsum_le_of_le (prefetch_le_holds page) (s.workers.eraseIdx i)
    have hin : page ∈ s.fetched := List.count_pos_iff.1 (by omega)
    obtain ⟨h1, h2, h3, h4, h5⟩ := h
    have hmine := h4 _ ((mem_split hi _).2 (Or.inl rfl)) page rfl
    simp only [sent] at hmine
    cases hk : cs[k]? with
    | none =>
      simp [getContacts, hk] at hs
      subst hs
      have hk' : cs.length ≤ k := by simpa using hk
      constructor
      · exact h1
      · exact h2
      · intro c
        have := h3 c
        rw [wsum_split hi] at this
        simpa [wsum_set hi, remaining, List.drop_eq_nil_of_le hk'] using this
      · intro w hmem p hpage
        simp only [mem_set_split hi] at hmem
        rcases hmem with rfl | hmem
        · simp [pageOf] at hpage
        · exact h4 w ((mem_split hi _).2 (Or.inr hmem)) p hpage
      · intro p hz'
        simp only [wsum_set hi] at hz'
        simp [holds, pageOf] at hz'
        by_cases hp : p = page
        · subst hp
          simp [hin, hb, hmine, List.take_of_length_le hk']
        · exact h5 p (by rw [wsum_split hi]; simp [holds, pageOf, hz', Ne.symm hp])
    | some c =>
      by_cases hcc : s.ch.closed = true
      · simp [getContacts, hk, hcc] at hs
        subst hs
        exact recs_congr ⟨h1, h2, h3, h4, h5⟩ rfl rfl rfl rfl rfl rfl rfl
      · by_cases hbf : s.ch.buf.length < env.capacity
        · simp [getContacts, hk, hcc, hbf] at hs
          subst hs
          obtain ⟨hklt, hkc⟩ := List.getElem?_eq_some.1 hk
          constructor
          · simp only [← h1, List.append_assoc]
          · exact h2
          · intro c'
            have := h3 c'
            rw [wsum_split hi] at this
            simp [wsum_set hi, remaining, List.drop_eq_getElem_cons hklt, hkc,
              List.count_cons] at this ⊢
            omega
          · intro w hmem p hpage
            simp only [mem_set_split hi] at hmem
            rcases hmem with rfl | hmem
            · simp [pageOf] at hpage
              subst hpage
              simp [pushedOf_append, sent, hmine, List.take_succ, hk]
            · have hne : page ≠ p := by
                intro e
                subst e
                exact holds_eq_zero (wsum_eq_zero hfree w hmem) hpage
              simp only [pushedOf_append, if_neg hne, List.append_nil]
              exact h4 w ((mem_split hi _).2 (Or.inr hmem)) p hpage
          · intro p hz'
            simp only [wsum_set hi] at hz'
            simp [holds, pageOf] at hz'
            have hne : page ≠ p := hz'.2
            simp only [pushedOf_append, if_neg hne, List.append_nil]
            exact h5 p (by rw [wsum_split hi]; simp [holds, pageOf, hz'.1, hne])
        · simp [getContacts, hk, hcc, hbf] at hs
  | returned =>
    by_cases hw : s.wg = 0
    · simp [getContacts, hw] at hs
      subst hs
      exact recs_congr h rfl rfl rfl rfl rfl rfl rfl
    · simp [getContacts, hw] at hs
      subst hs
      exact recs_silent h hi rfl rfl rfl rfl rfl rfl rfl rfl rfl rfl
  | done => simp [getContacts] at hs

theorem recs_main {env : Env} {s s' : State} (h : Recs env s)
    (hs : crawlContacts env s = some s') : Recs env s' := by
  obtain ⟨h1, h2, h3, h4, h5⟩ := h
  unfold crawlContacts at hs
  cases hm : s.main with
  | spawnLoop i =>
    simp only [hm] at hs
    simp only [hm, inHand, uncounted] at h1 h2
    split at hs <;> simp at hs <;> subst hs <;> constructor <;>
      simp only [inHand, uncounted] <;> assumption
  | goWorker i =>
    simp only [hm] at hs
    simp only [hm, inHand, uncounted] at h1 h2
    simp at hs
    subst hs
    constructor
    · exact h1
    · exact h2
    · intro c
      simpa [wsum_append, remaining] using h3 c
    · intro w hmem p hpage
      simp only [List.mem_append, List.mem_singleton] at hmem
      rcases hmem with hmem | rfl
      · exact h4 w hmem p hpage
      · simp [pageOf] at hpage
    · intro p hz
      apply h5
      simpa [wsum_append, holds, pageOf] using hz
  | goCloser =>
    simp only [hm] at hs
    simp only [hm, inHand, uncounted] at h1 h2
    simp at hs
    subst hs
    constructor <;> simp only [inHand, uncounted] <;> assumption
  | recv =>
    simp only [hm] at hs
    simp only [hm, inHand, uncounted] at h1 h2
    cases hb : s.ch.buf with
    | nil =>
      simp only [hb] at hs
      split at hs <;> simp at hs
      subst hs
      constructor <;> simp only [inHand, uncounted] <;> assumption
    | cons x rest =>
      obtain ⟨page, contact⟩ := x
      simp only [hb] at hs
      simp at hs
      subst hs
      constructor <;> simp only [inHand, uncounted]
      · simpa [hb] using h1
      all_goals assumption
  | write page contact =>
    simp only [hm] at hs
    simp only [hm, inHand, uncounted] at h1 h2
    cases hw : writeContact (env.sink s.written.length contact) s.database contact env.epoch with
    | returned db =>
      simp [hw] at hs
      subst hs
      constructor <;> simp only [inHand, uncounted]
      · simpa using h1
      · simp at h2 ⊢
        omega
      all_goals assumption
    | panicked =>
      simp [hw] at hs
      subst hs
      constructor <;> simp only [hm, inHand, uncounted] <;> assumption
    | hangs => simp [hw] at hs
  | count =>
    simp only [hm] at hs
    simp only [hm, inHand, uncounted] at h1 h2
    simp at hs
    subst hs
    constructor <;> simp only [inHand, uncounted]
    · exact h1
    · simp at h2 ⊢
      omega
    all_goals assumption
  | print =>
    simp only [hm] at hs
    simp only [hm, inHand, uncounted] at h1 h2
    simp at hs
    subst hs
    constructor <;> simp only [inHand, uncounted] <;> assumption
  | returned =>
    simp [hm] at hs

theorem recs_closer {env : Env} {s s' : State} (h : Recs env s)
    (hs : closerStep s = some s') : Recs env s' := by
  obtain ⟨h1, h2, h3, h4, h5⟩ := h
  unfold closerStep at hs
  split at hs
  · simp at hs
  · split at hs <;> simp at hs
    subst hs
    constructor <;> assumption
  · split at hs <;> simp at hs <;> subst hs <;> constructor <;> assumption
  · simp at hs

theorem recs_step {env : Env} {s s' : State} {t : Tid} (hc : Core env s) (h : Recs env s)
    (hs : step env s t = some s') : Recs env s' := by
  obtain ⟨-, -, hm | hcl | ⟨i, pc, -, hi, hw⟩⟩ := step_cases hs
  · exact recs_main h hm.2
  · exact recs_closer h hcl.2
  · exact recs_worker hc h hi hw

theorem recs_reachable {env : Env} {s : State} (hr : Reachable env s) : Recs env s :=
  reachable_induction (recs_init env)
    (fun _ _ _ hr0 hp hs => recs_step (core_reachable hr0) hp hs) hr

/-! ## A bounded upstream -/

theorem beyond_le (K : Nat) (w : WorkerPC) : beyond K w ≤ 1 := by
  cases w <;> simp [beyond] <;> split <;> omega

theorem bounded_init (env : Env) (K : Nat) : Bounded env K init := by
  constructor <;> simp [init, wsum]

theorem workers_le_concurrency {env : Env} {s : State} (h : Proto env s) :
    s.workers.length ≤ env.concurrency := by
  have h1 := h.spawnedLen
  have h2 := h.bound
  cases hm : s.main <;> simp [hm, spawned, spawnOk] at h1 h2 <;> omega

/-- Under `Shape` at most `K + concurrency` pages are ever claimed. -/
theorem claimed_le_of_bounded {env : Env} {K : Nat} {s : State} (hp : Proto env s)
    (h : Bounded env K s) : s.claimed.length ≤ K + env.concurrency := by
  have h1 := h.beyondCount
  have h2 := wsum_le_length (beyond_le K) s.workers
  have h3 := workers_le_concurrency hp
  omega

/-- A page a worker holds has been claimed, so it lies in `1..claimed.length`. -/
theorem core_held_range {env : Env} {s : State} (h : Core env s) {i : Nat} {pc : WorkerPC}
    (hi : s.workers[i]? = some pc) {p : Nat} (hp : pageOf pc = some p) :
    1 ≤ p ∧ p ≤ s.claimed.length := by
  have h1 := (core_others_free h hi hp).2
  rw [h.claimedRange, count_range'] at h1
  simp at h1
  omega

theorem bounded_silent {env : Env} {K : Nat} {s s' : State} (h : Bounded env K s) {i : Nat}
    {pc b : WorkerPC} (hi : s.workers[i]? = some pc) (hw : s'.workers = s.workers.set i b)
    (e1 : beyond K b = beyond K pc) (e2 : s'.claimed = s.claimed) (e3 : s'.status = s.status) :
    Bounded env K s' := by
  obtain ⟨h1, h2⟩ := h
  constructor
  · rw [e2, hw, wsum_set hi, e1, ← wsum_split hi]
    exact h1
  · rw [e3]
    exact h2

theorem bounded_worker {env : Env} {K : Nat} {s s' : State} {i : Nat} {pc : WorkerPC}
    (hshape : Shape env K) (hc : Core env s) (hp : Proto env s) (h : Bounded env K s)
    (hi : s.workers[i]? = some pc) (hs : getContacts env s i pc = some s') :
    Bounded env K s' := by
  have hno := (proto_worker hc hp hi hs).noPanic
  have hle := claimed_le_of_bounded hp h
  cases pc with
  | lockCursor =>
    simp [getContacts] at hs
    obtain ⟨hm, rfl⟩ := hs
    exact bounded_silent h hi rfl rfl rfl rfl
  | readCursor =>
    have hfresh := core_fresh hc hi
    rw [hc.claimedRange, count_range'] at hfresh
    simp at hfresh
    have hcur := hc.cursor
    simp [getContacts] at hs
    subst hs
    obtain ⟨h1, h2⟩ := h
    rw [wsum_split hi] at h1
    simp [beyond] at h1
    have hnp : 1 ≤ s.state.nextPage := by
      have := wsum_le_of_le pendingInc_le s.workers
      have hcm := hc.cursorMutex
      have := inCursorCS_le
      have hl := wsum_le_length inCursorCS_le s.workers
      rw [wsum_split hi] at hcm
      simp [inCursorCS] at hcm
      have hz : wsum inCursorCS (s.workers.eraseIdx i) = 0 := by
        split at hcm <;> omega
      have hz' := wsum_le_of_le pendingInc_le (s.workers.eraseIdx i)
      rw [wsum_split hi] at hcur
      simp [pendingInc] at hcur
      omega
    have hn := hfresh hnp
    constructor
    · simp [wsum_set hi, beyond]
      split <;> omega
    · exact h2
  | incLoad page =>
    simp [getContacts] at hs
    subst hs
    exact bounded_silent h hi rfl rfl rfl rfl
  | incStore page tmp =>
    simp [getContacts] at hs
    subst hs
    exact bounded_silent h hi rfl rfl rfl rfl
  | unlockCursor page =>
    by_cases hm : s.state.nextPageMutex = true
    · simp [getContacts, hm] at hs
      subst hs
      exact bounded_silent h hi rfl rfl rfl rfl
    · simp [getContacts, hm] at hs
      subst hs
      simp at hno
  | fetching page =>
    obtain ⟨hp1, hp2⟩ := core_held_range hc hi (p := page) rfl
    cases hf : _getContacts env.upstream page with
    | error e =>
      exfalso
      by_cases hk : page ≤ K
      · obtain ⟨cs, hcs, -⟩ := hshape.1 page hp1 hk
        simp [hcs] at hf
      · have := hshape.2 page (by omega) (by omega)
        simp [this] at hf
    | ok cs =>
      by_cases hl : cs = []
      · simp [getContacts, hf, hl] at hs
        subst hs
        have hk : K < page := by
          by_contra hk
          obtain ⟨cs', hcs, hne⟩ := hshape.1 page hp1 (by omega)
          rw [hf] at hcs
          simp at hcs
          exact hne (hcs ▸ hl)
        exact bounded_silent h hi rfl (by simp [beyond, hk]) rfl rfl
      · simp [getContacts, hf, hl] at hs
        subst hs
        have hk : ¬ K < page := by
          intro hk
          have := hshape.2 page hk (by omega)
          rw [hf] at this
          simp at this
          exact hl this
        exact bounded_silent h hi rfl (by simp [beyond, hk]) rfl rfl
  | lockPages page cs =>
    simp [getContacts] at hs
    obtain ⟨hm, rfl⟩ := hs
    exact bounded_silent h hi rfl rfl rfl rfl
  | loadPages page cs =>
    simp [getContacts] at hs
    subst hs
    exact bounded_silent h hi rfl rfl rfl rfl
  | storePages page cs tmp =>
    simp [getContacts] at hs
    subst hs
    exact bounded_silent h hi rfl rfl rfl rfl
  | unlockPages page cs =>
    by_cases hm : s.state.totalPagesMutex = true
    · simp [getContacts, hm] at hs
      subst hs
      exact bounded_silent h hi rfl rfl rfl rfl
    · simp [getContacts, hm] at hs
      subst hs
      simp at hno
  | emitting page cs k =>
    cases hk : cs[k]? with
    | none =>
      simp [getContacts, hk] at hs
      subst hs
      exact bounded_silent h hi rfl rfl rfl rfl
    | some c =>
      by_cases hcc : s.ch.closed = true
      · simp [getContacts, hk, hcc] at hs
        subst hs
        simp at hno
      · by_cases hbf : s.ch.buf.length < env.capacity
        · simp [getContacts, hk, hcc, hbf] at hs
          subst hs
          exact bounded_silent h hi rfl rfl rfl rfl
        · simp [getContacts, hk, hcc, hbf] at hs
  | returned =>
    by_cases hw : s.wg = 0
    · simp [getContacts, hw] at hs
      subst hs
      simp at hno
    · simp [getContacts, hw] at hs
      subst hs
      exact bounded_silent h hi rfl rfl rfl rfl
  | done => simp [getContacts] at hs

theorem bounded_main {env : Env} {K : Nat} {s s' : State}
    (h : Bounded env K s) (hs : crawlContacts env s = some s') : Bounded env K s' := by
  obtain ⟨h1, h2⟩ := h
  unfold crawlContacts at hs
  split at hs
  · split at hs <;> simp at hs <;> subst hs <;> exact ⟨h1, h2⟩
  · simp at hs
    subst hs
    exact ⟨by simpa [wsum_append, beyond] using h1, h2⟩
  · simp at hs; subst hs; exact ⟨h1, h2⟩
  · split at hs
    · simp at hs; subst hs; exact ⟨h1, h2⟩
    · split at hs <;> simp at hs
      subst hs; exact ⟨h1, h2⟩
  · rename_i page contact hm
    split at hs
    · simp at hs; subst hs; exact ⟨h1, h2⟩
    · rename_i hw
      simp at hs; subst hs
      refine ⟨h1, fun hsink => ?_⟩
      rcases hsink s.written.length contact with hk | hk <;> simp [hk, writeContact] at hw
    · simp at hs
  · simp at hs; subst hs; exact ⟨h1, h2⟩
  · simp at hs; subst hs; exact ⟨h1, h2⟩
  · simp at hs

theorem bounded_closer {env : Env} {K : Nat} {s s' : State} (hp : Proto env s)
    (h : Bounded env K s) (hs : closerStep s = some s') : Bounded env K s' := by
  have hno := (proto_closer hp hs).noPanic
  obtain ⟨h1, h2⟩ := h
  unfold closerStep at hs
  split at hs
  · simp at hs
  · split at hs <;> simp at hs
    subst hs; exact ⟨h1, h2⟩
  · split at hs <;> simp at hs <;> subst hs
    · simp at hno
    · exact ⟨h1, h2⟩
  · simp at hs

theorem bounded_step {env : Env} {K : Nat} {s s' : State} {t : Tid} (hshape : Shape env K)
    (hc : Core env s) (hp : Proto env s) (h : Bounded env K s)
    (hs : step env s t = some s') : Bounded env K s' := by
  obtain ⟨-, -, hm | hcl | ⟨i, pc, -, hi, hw⟩⟩ := step_cases hs
  · exact bounded_main h hm.2
  · exact bounded_closer hp h hcl.2
  · exact bounded_worker hshape hc hp h hi hw

theorem bounded_reachable {env : Env} {K : Nat} {s : State} (hshape : Shape env K)
    (hr : Reachable env s) : Bounded env K s :=
  reachable_induction (bounded_init env K)
    (fun _ _ _ hr0 hb hs =>
      bounded_step hshape (core_reachable hr0) (proto_reachable hr0) hb hs) hr

/-! ## Every transition uses one unit of measure -/

theorem pool_succ (env : Env) {K n : Nat} (h : n < K) :
    pool env K n = pageCost env (n + 1) + pool env K (n + 1) := by
  unfold pool
  have : K - n = (K - (n + 1)) + 1 := by omega
  rw [this, List.range'_succ]
  simp

theorem pool_zero (env : Env) {K n : Nat} (h : K ≤ n) : pool env K n = 0 := by
  unfold pool
  have : K - n = 0 := by omega
  rw [this]
  simp

theorem measure_silent {env : Env} {K : Nat} {s s' : State} {i : Nat} {pc b : WorkerPC}
    (hi : s.workers[i]? = some pc) (hw : s'.workers = s.workers.set i b)
    (e1 : workerCost env K b + 1 = workerCost env K pc) (e2 : s'.claimed = s.claimed)
    (e3 : s'.main = s.main) (e4 : s'.closer = s.closer) (e5 : s'.ch = s.ch) :
    measure env K s' + 1 = measure env K s := by
  unfold measure
  rw [e2, e3, e4, e5, hw, wsum_set hi, wsum_split hi]
  omega

theorem measure_worker {env : Env} {K : Nat} {s s' : State} {i : Nat} {pc : WorkerPC}
    (hshape : Shape env K) (hc : Core env s) (hp : Proto env s) (hb : Bounded env K s)
    (hi : s.workers[i]? = some pc) (hs : getContacts env s i pc = some s')
    (halive : s'.status = .running) : measure env K s' + 1 = measure env K s := by
  have hrun := hb
  have hle := claimed_le_of_bounded hp hb
  cases pc with
  | lockCursor =>
    simp [getContacts] at hs
    obtain ⟨hm, rfl⟩ := hs
    exact measure_silent hi rfl rfl rfl rfl rfl rfl
  | readCursor =>
    have hfresh := core_fresh hc hi
    rw [hc.claimedRange, count_range'] at hfresh
    simp at hfresh
    have hcur := hc.cursor
    have hcm := hc.cursorMutex
    rw [wsum_split hi] at hcm hcur
    simp [inCursorCS, pendingInc] at hcm hcur
    have hz : wsum inCursorCS (s.workers.eraseIdx i) = 0 := by
      split at hcm <;> omega
    have hz' := wsum_le_of_le pendingInc_le (s.workers.eraseIdx i)
    have hn : s.state.nextPage = s.claimed.length + 1 := by omega
    simp [getContacts] at hs
    subst hs
    unfold measure
    simp only [wsum_set hi, wsum_split hi, workerCost, List.length_append, List.length_singleton]
    rw [hn]
    by_cases hk : s.claimed.length < K
    · rw [pool_succ env hk, if_pos (by omega)]
      omega
    · rw [pool_zero env (by omega : K ≤ s.claimed.length),
        pool_zero env (by omega : K ≤ s.claimed.length + 1), if_neg (by omega)]
      omega
  | incLoad page =>
    simp [getContacts] at hs
    subst hs
    exact measure_silent hi rfl (by simp only [workerCost]; split <;> omega) rfl rfl rfl rfl
  | incStore page tmp =>
    simp [getContacts] at hs
    subst hs
    exact measure_silent hi rfl (by simp only [workerCost]; split <;> omega) rfl rfl rfl rfl
  | unlockCursor page =>
    by_cases hm : s.state.nextPageMutex = true
    · simp [getContacts, hm] at hs
      subst hs
      exact measure_silent hi rfl (by simp only [workerCost]; split <;> omega) rfl rfl rfl rfl
    · simp [getContacts, hm] at hs
      subst hs
      simp at halive
  | fetching page =>
    obtain ⟨hp1, hp2⟩ := core_held_range hc hi (p := page) rfl
    cases hf : _getContacts env.upstream page with
    | error e =>
      simp [getContacts, hf] at hs
      subst hs
      simp at halive
    | ok cs =>
      have hbt := batch_of_ok hf
      by_cases hl : cs = []
      · simp [getContacts, hf, hl] at hs
        subst hs
        have hk : ¬ page ≤ K := by
          intro hk
          obtain ⟨cs', hcs, hne⟩ := hshape.1 page hp1 hk
          rw [hf] at hcs
          simp at hcs
          exact hne (hcs ▸ hl)
        exact measure_silent hi rfl (by simp [workerCost, hk]) rfl rfl rfl rfl
      · simp [getContacts, hf, hl] at hs
        subst hs
        have hk : page ≤ K := by
          by_contra hk
          have := hshape.2 page (by omega) (by omega)
          rw [hf] at this
          simp at this
          exact hl this
        exact measure_silent hi rfl (by simp [workerCost, hk, pageCost, hbt]; omega)
          rfl rfl rfl rfl
  | lockPages page cs =>
    simp [getContacts] at hs
    obtain ⟨hm, rfl⟩ := hs
    exact measure_silent hi rfl rfl rfl rfl rfl rfl
  | loadPages page cs =>
    simp [getContacts] at hs
    subst hs
    exact measure_silent hi rfl rfl rfl rfl rfl rfl
  | storePages page cs tmp =>
    simp [getContacts] at hs
    subst hs
    exact measure_silent hi rfl rfl rfl rfl rfl rfl
  | unlockPages page cs =>
    by_cases hm : s.state.totalPagesMutex = true
    · simp [getContacts, hm] at hs
      subst hs
      exact measure_silent hi rfl (by simp [workerCost]) rfl rfl rfl rfl
    · simp [getContacts, hm] at hs
      subst hs
      simp at halive
  | emitting page cs k =>
    cases hk : cs[k]? with
    | none =>
      have hk' : cs.length ≤ k := by simpa using hk
      simp [getContacts, hk] at hs
      subst hs
      exact measure_silent hi rfl (by simp [workerCost]; omega) rfl rfl rfl rfl
    | some c =>
      obtain ⟨hklt, -⟩ := List.getElem?_eq_some.1 hk
      by_cases hcc : s.ch.closed = true
      · simp [getContacts, hk, hcc] at hs
        subst hs
        simp at halive
      · by_cases hbf : s.ch.buf.length < env.capacity
        · simp [getContacts, hk, hcc, hbf] at hs
          subst hs
          unfold measure
          simp only [wsum_set hi, wsum_split hi, workerCost, List.length_append,
            List.length_singleton]
          omega
        · simp [getContacts, hk, hcc, hbf] at hs
  | returned =>
    by_cases hw : s.wg = 0
    · simp [getContacts, hw] at hs
      subst hs
      simp at halive
    · simp [getContacts, hw] at hs
      subst hs
      exact measure_silent hi rfl rfl rfl rfl rfl rfl
  | done => simp [getContacts] at hs

theorem measure_main {env : Env} {K : Nat} {s s' : State} (hp : Proto env s)
    (hs : crawlContacts env s = some s') (halive : s'.status = .running) :
    measure env K s' + 1 = measure env K s := by
  have hbd := hp.bound
  unfold crawlContacts at hs
  cases hm : s.main with
  | spawnLoop i =>
    simp only [hm] at hs
    simp only [hm, spawnOk] at hbd
    by_cases hi : i < env.concurrency
    · simp [hi] at hs
      subst hs
      simp only [measure, hm, mainCost]
      omega
    · simp [hi] at hs
      subst hs
      simp only [measure, hm, mainCost]
      omega
  | goWorker i =>
    simp only [hm] at hs
    simp only [hm, spawnOk] at hbd
    simp at hs
    subst hs
    simp only [measure, hm, mainCost, wsum_append, workerCost]
    omega
  | goCloser =>
    simp only [hm] at hs
    have hn : s.closer = .notStarted := hp.closerStart.2 (by simp [hm, beforeCloser])
    simp at hs
    subst hs
    simp only [measure, hm, mainCost, hn, closerCost]
    omega
  | recv =>
    simp only [hm] at hs
    cases hb : s.ch.buf with
    | nil =>
      simp only [hb] at hs
      by_cases hcl : s.ch.closed = true
      · simp [hcl] at hs
        subst hs
        simp only [measure, hm, mainCost]
        omega
      · simp [hcl] at hs
    | cons x rest =>
      obtain ⟨page, contact⟩ := x
      simp only [hb] at hs
      simp at hs
      subst hs
      simp only [measure, hm, mainCost, hb, List.length_cons]
      omega
  | write page contact =>
    simp only [hm] at hs
    cases hw : writeContact (env.sink s.written.length contact) s.database contact env.epoch with
    | returned db =>
      simp [hw] at hs
      subst hs
      simp only [measure, hm, mainCost]
      omega
    | panicked =>
      simp [hw] at hs
      subst hs
      simp at halive
    | hangs => simp [hw] at hs
  | count =>
    simp only [hm] at hs
    simp at hs
    subst hs
    simp only [measure, hm, mainCost]
    omega
  | print =>
    simp only [hm] at hs
    simp at hs
    subst hs
    simp only [measure, hm, mainCost]
    omega
  | returned =>
    simp [hm] at hs

theorem measure_closer {env : Env} {K : Nat} {s s' : State}
    (hs : closerStep s = some s') (halive : s'.status = .running) :
    measure env K s' + 1 = measure env K s := by
  unfold closerStep at hs
  cases hm : s.closer with
  | notStarted => simp [hm] at hs
  | waiting =>
    simp only [hm] at hs
    split at hs <;> simp at hs
    subst hs
    simp only [measure, hm, closerCost]
    omega
  | closing =>
    simp only [hm] at hs
    split at hs <;> simp at hs <;> subst hs
    · simp at halive
    · simp only [measure, hm, closerCost]
      omega
  | finished => simp [hm] at hs

/-- Under `Shape` with a returning sink every transition uses up exactly one
unit of `measure`. -/
theorem measure_step {env : Env} {K : Nat} {s s' : State} {t : Tid} (hshape : Shape env K)
    (hsink : SinkReturns env) (hr : Reachable env s) (hs : step env s t = some s') :
    measure env K s' + 1 = measure env K s := by
  have hc := core_reachable hr
  have hp := proto_reachable hr
  have hb := bounded_reachable (K := K) hshape hr
  have halive := (bounded_step hshape hc hp hb hs).alive hsink
  obtain ⟨-, -, hm | hcl | ⟨i, pc, -, hi, hw⟩⟩ := step_cases hs
  · exact measure_main hp hm.2 halive
  · exact measure_closer hcl.2 halive
  · exact measure_worker hshape hc hp hb hi hw halive

/-! ## Progress -/

theorem runFrom_append {env : Env} (l : List Tid) (t : Tid) (a b : State)
    (h : runFrom env a l = some b) : runFrom env a (l ++ [t]) = step env b t := by
  induction l generalizing a with
  | nil =>
    simp [runFrom] at h
    subst h
    simp only [List.nil_append, runFrom]
    cases step env a t <;> rfl
  | cons x xs ih =>
    simp only [List.cons_append, runFrom] at h ⊢
    cases hx : step env a x with
    | none => simp [hx] at h
    | some a' =>
      simp only [hx] at h ⊢
      exact ih a' h

theorem reachable_step {env : Env} {s s' : State} {t : Tid} (hr : Reachable env s)
    (hs : step env s t = some s') : Reachable env s' := by
  obtain ⟨sched, h⟩ := hr
  exact ⟨sched ++ [t], by rw [runFrom_append sched t init s h, hs]⟩

/-- Length of a run from a reachable state, in units of `measure`. -/
theorem run_length_from {env : Env} {K : Nat} (hshape : Shape env K) (hsink : SinkReturns env)
    (sched : List Tid) : ∀ s0 s, Reachable env s0 → runFrom env s0 sched = some s →
      sched.length + measure env K s = measure env K s0 := by
  induction sched with
  | nil =>
    intro s0 s _ h
    simp [runFrom] at h
    subst h
    simp
  | cons t rest ih =>
    intro s0 s hr h
    simp only [runFrom] at h
    cases hst : step env s0 t with
    | none => simp [hst] at h
    | some s1 =>
      simp only [hst] at h
      have h1 := measure_step (K := K) hshape hsink hr hst
      have h2 := ih s1 s (reachable_step hr hst) h
      simp only [List.length_cons]
      omega

theorem exists_index_of_mem {α : Type} {l : List α} {a : α} (h : a ∈ l) :
    ∃ i : Nat, l[i]? = some a := by
  obtain ⟨i, hi, rfl⟩ := List.mem_iff_getElem.1 h
  exact ⟨i, List.getElem?_eq_getElem hi⟩

theorem exists_pos_of_wsum {α : Type} {f : α → Nat} {l : List α} (h : wsum f l ≠ 0) :
    ∃ a ∈ l, f a ≠ 0 := by
  by_contra hn
  apply h
  apply wsum_zero_of
  intro x hx
  by_contra hne
  exact hn ⟨x, hx, hne⟩

theorem wsum_isDone_all {l : List WorkerPC} (h : ∀ w ∈ l, w = .done) :
    wsum isDone l = l.length := by
  induction l with
  | nil => rfl
  | cons a l ih =>
    have ha := h a (by simp)
    have := ih (fun w hw => h w (by simp [hw]))
    subst ha
    simp [wsum, isDone] at this ⊢
    omega

/-- A worker inside a critical section, at a fetch, or at `wg.Done()` can move. -/
theorem getContacts_enabled_free (env : Env) (s : State) (i : Nat) (pc : WorkerPC)
    (h : pc ≠ .lockCursor) (h1 : ∀ p cs, pc ≠ .lockPages p cs)
    (h2 : ∀ p cs k, pc ≠ .emitting p cs k) (h3 : pc ≠ .done) :
    ∃ s', getContacts env s i pc = some s' := by
  cases pc with
  | lockCursor => exact absurd rfl h
  | lockPages p cs => exact absurd rfl (h1 p cs)
  | emitting p cs k => exact absurd rfl (h2 p cs k)
  | done => exact absurd rfl h3
  | readCursor => exact ⟨_, rfl⟩
  | incLoad p => exact ⟨_, rfl⟩
  | incStore p t => exact ⟨_, rfl⟩
  | unlockCursor p =>
    simp only [getContacts]
    split <;> exact ⟨_, rfl⟩
  | fetching p =>
    simp only [getContacts]
    split
    · exact ⟨_, rfl⟩
    · split <;> exact ⟨_, rfl⟩
  | loadPages p cs => exact ⟨_, rfl⟩
  | storePages p cs t => exact ⟨_, rfl⟩
  | unlockPages p cs =>
    simp only [getContacts]
    split <;> exact ⟨_, rfl⟩
  | returned =>
    simp only [getContacts]
    split <;> exact ⟨_, rfl⟩

theorem step_worker_eq {env : Env} {s : State} {i : Nat} {pc : WorkerPC}
    (hst : s.status = .running) (hm : s.main ≠ .returned) (hi : s.workers[i]? = some pc) :
    step env s (.worker i) = getContacts env s i pc := by
  simp [step, hst, hm, hi]

/-- A worker that has not ended can move, or whoever holds the mutex it waits
for can, provided the channel has room. -/
theorem live_worker_progress {env : Env} {s : State} (hc : Core env s)
    (hst : s.status = .running) (hm : s.main ≠ .returned)
    (hroom : s.ch.buf.length < env.capacity) {i : Nat} {pc : WorkerPC}
    (hi : s.workers[i]? = some pc) (hpc : pc ≠ .done) :
    ∃ t s', step env s t = some s' := by
  by_cases hA : pc = .lockCursor
  · subst hA
    by_cases hmx : s.state.nextPageMutex = true
    · have h1 := hc.cursorMutex
      rw [if_pos hmx] at h1
      obtain ⟨w, hw, hne⟩ := exists_pos_of_wsum (f := inCursorCS) (l := s.workers) (by omega)
      obtain ⟨j, hj⟩ := exists_index_of_mem hw
      obtain ⟨s', hs'⟩ := getContacts_enabled_free env s j w
        (by rintro rfl; simp [inCursorCS] at hne)
        (by rintro p cs rfl; simp [inCursorCS] at hne)
        (by rintro p cs k rfl; simp [inCursorCS] at hne)
        (by rintro rfl; simp [inCursorCS] at hne)
      exact ⟨.worker j, s', by rw [step_worker_eq hst hm hj, hs']⟩
    · exact ⟨.worker i, _, by rw [step_worker_eq hst hm hi]; simp [getContacts, hmx]; rfl⟩
  by_cases hB : ∃ p cs, pc = .lockPages p cs
  · obtain ⟨p, cs, rfl⟩ := hB
    by_cases hmx : s.state.totalPagesMutex = true
    · have h1 := hc.pagesMutex
      rw [if_pos hmx] at h1
      obtain ⟨w, hw, hne⟩ := exists_pos_of_wsum (f := inPagesCS) (l := s.workers) (by omega)
      obtain ⟨j, hj⟩ := exists_index_of_mem hw
      obtain ⟨s', hs'⟩ := getContacts_enabled_free env s j w
        (by rintro rfl; simp [inPagesCS] at hne)
        (by rintro p cs rfl; simp [inPagesCS] at hne)
        (by rintro p cs k rfl; simp [inPagesCS] at hne)
        (by rintro rfl; simp [inPagesCS] at hne)
      exact ⟨.worker j, s', by rw [step_worker_eq hst hm hj, hs']⟩
    · exact ⟨.worker i, _, by rw [step_worker_eq hst hm hi]; simp [getContacts, hmx]; rfl⟩
  by_cases hC : ∃ p cs k, pc = .emitting p cs k
  · obtain ⟨p, cs, k, rfl⟩ := hC
    refine ⟨.worker i, ?_⟩
    rw [step_worker_eq hst hm hi]
    cases hk : cs[k]? with
    | none => exact ⟨_, by simp [getContacts, hk]; rfl⟩
    | some c =>
      by_cases hcl : s.ch.closed = true
      · exact ⟨_, by simp [getContacts, hk, hcl]; rfl⟩
      · exact ⟨_, by simp [getContacts, hk, hcl, hroom]; rfl⟩
  · obtain ⟨s', hs'⟩ := getContacts_enabled_free env s i pc hA
      (fun p cs e => hB ⟨p, cs, e⟩) (fun p cs k e => hC ⟨p, cs, k, e⟩) hpc
    exact ⟨.worker i, s', by rw [step_worker_eq hst hm hi, hs']⟩

/-- No deadlock: while the process is alive and `crawlContacts` has not
returned, some goroutine can move. -/
theorem progress {env : Env} {s : State} (hcap : 1 ≤ env.capacity)
    (hsink : SinkReturns env) (hr : Reachable env s) (hst : s.status = .running)
    (hm : s.main ≠ .returned) : ∃ t s', step env s t = some s' := by
  have hc := core_reachable hr
  have hp := proto_reachable hr
  have hmain : ∀ s', crawlContacts env s = some s' → ∃ t s', step env s t = some s' :=
    fun s' h => ⟨.main, s', by simp [step, hst, hm, h]⟩
  cases hmm : s.main with
  | spawnLoop i =>
    by_cases hi : i < env.concurrency
    · exact hmain _ (by simp [crawlContacts, hmm, hi]; rfl)
    · exact hmain _ (by simp [crawlContacts, hmm, hi]; rfl)
  | goWorker i => exact hmain _ (by simp [crawlContacts, hmm]; rfl)
  | goCloser => exact hmain _ (by simp [crawlContacts, hmm]; rfl)
  | write page contact =>
    rcases hsink s.written.length contact with hk | hk
    · exact hmain _ (by simp [crawlContacts, hmm, hk, writeContact]; rfl)
    · exact hmain _ (by simp [crawlContacts, hmm, hk, writeContact]; rfl)
  | count => exact hmain _ (by simp [crawlContacts, hmm]; rfl)
  | print => exact hmain _ (by simp [crawlContacts, hmm]; rfl)
  | returned => exact absurd hmm hm
  | recv =>
    cases hb : s.ch.buf with
    | cons x rest =>
      obtain ⟨page, contact⟩ := x
      exact hmain _ (by simp [crawlContacts, hmm, hb]; rfl)
    | nil =>
      by_cases hcl : s.ch.closed = true
      · exact hmain _ (by simp [crawlContacts, hmm, hb, hcl]; rfl)
      · have hclf : s.ch.closed = false := by simpa using hcl
        have hcloser : ∀ s', closerStep s = some s' → ∃ t s', step env s t = some s' :=
          fun s' h => ⟨.closer, s', by simp [step, hst, hm, h]⟩
        cases hcp : s.closer with
        | notStarted =>
          have := hp.closerStart.1 hcp
          simp [hmm, beforeCloser] at this
        | finished =>
          have := hp.closedIff.2 hcp
          exact absurd this hcl
        | closing => exact hcloser _ (by simp [closerStep, hcp, hclf]; rfl)
        | waiting =>
          by_cases hw : s.wg = 0
          · exact hcloser _ (by simp [closerStep, hcp, hw]; rfl)
          · have h1 := hp.spawnedLen
            have h3 := hp.wgCount
            simp only [hmm, spawned, added] at h1 h3
            have hlt : wsum isDone s.workers ≠ s.workers.length := by omega
            have : ∃ w ∈ s.workers, w ≠ .done := by
              by_contra hn
              apply hlt
              have hall : ∀ w ∈ s.workers, w = .done := by
                intro w hw'
                by_contra hne
                exact hn ⟨w, hw', hne⟩
              exact wsum_isDone_all hall
            obtain ⟨w, hw', hne⟩ := this
            obtain ⟨i, hi⟩ := exists_index_of_mem hw'
            exact live_worker_progress hc hst hm (by rw [hb]; simpa using hcap) hi hne

/-- Under `Shape`, with a returning sink and room in the channel, every reachable
state can be run on until `crawlContacts` returns. -/
theorem completes_from {env : Env} {K : Nat} (hshape : Shape env K) (hsink : SinkReturns env)
    (hcap : 1 ≤ env.capacity) : ∀ (n : Nat) (s : State), Reachable env s →
      measure env K s = n → ∃ sched sf, runFrom env s sched = some sf ∧ sf.main = .returned := by
  intro n
  induction n with
  | zero =>
    intro s hr hn
    by_cases hm : s.main = .returned
    · exact ⟨[], s, rfl, hm⟩
    · have hst := (bounded_reachable (K := K) hshape hr).alive hsink
      obtain ⟨t, s', hs'⟩ := progress hcap hsink hr hst hm
      have := measure_step (K := K) hshape hsink hr hs'
      omega
  | succ n ih =>
    intro s hr hn
    by_cases hm : s.main = .returned
    · exact ⟨[], s, rfl, hm⟩
    · have hst := (bounded_reachable (K := K) hshape hr).alive hsink
      obtain ⟨t, s', hs'⟩ := progress hcap hsink hr hst hm
      have hdec := measure_step (K := K) hshape hsink hr hs'
      obtain ⟨sched, sf, hrun, hfin⟩ := ih s' (reachable_step hr hs') (by omega)
      exact ⟨t :: sched, sf, by simp [runFrom, hs', hrun], hfin⟩

/-! ## Standard output -/

theorem out_init : Out init := by
  constructor <;> simp [init]

/-- A worker transition leaves main alone and prints only when it kills the process. -/
theorem getContacts_out {env : Env} {s s' : State} {i : Nat} {pc : WorkerPC}
    (hs : getContacts env s i pc = some s') :
    s'.main = s.main ∧ ((s'.status = s.status ∧ s'.stdout = s.stdout) ∨ s'.status ≠ .running) := by
  cases pc with
  | lockCursor =>
    simp [getContacts] at hs
    obtain ⟨-, rfl⟩ := hs
    simp
  | readCursor => simp [getContacts] at hs; subst hs; simp
  | incLoad p => simp [getContacts] at hs; subst hs; simp
  | incStore p t => simp [getContacts] at hs; subst hs; simp
  | unlockCursor p =>
    simp only [getContacts] at hs
    split at hs <;> simp at hs <;> subst hs <;> simp
  | fetching p =>
    simp only [getContacts] at hs
    split at hs
    · simp at hs; subst hs; simp
    · split at hs <;> simp at hs <;> subst hs <;> simp
  | lockPages p cs =>
    simp [getContacts] at hs
    obtain ⟨-, rfl⟩ := hs
    simp
  | loadPages p cs => simp [getContacts] at hs; subst hs; simp
  | storePages p cs t => simp [getContacts] at hs; subst hs; simp
  | unlockPages p cs =>
    simp only [getContacts] at hs
    split at hs <;> simp at hs <;> subst hs <;> simp
  | emitting p cs k =>
    simp only [getContacts] at hs
    split at hs
    · simp at hs; subst hs; simp
    · split at hs
      · simp at hs; subst hs; simp
      · split at hs <;> simp at hs
        subst hs; simp
  | returned =>
    simp only [getContacts] at hs
    split at hs <;> simp at hs <;> subst hs <;> simp
  | done => simp [getContacts] at hs

theorem out_step {env : Env} {s s' : State} {t : Tid} (h : Out s)
    (hs : step env s t = some s') : Out s' := by
  obtain ⟨hst, hm, hmain | hcl | ⟨i, pc, -, hi, hw⟩⟩ := step_cases hs
  · have hq := h.quiet hst
    rw [if_neg hm] at hq
    have hs2 := hmain.2
    unfold crawlContacts at hs2
    cases hmm : s.main with
    | spawnLoop i =>
      simp only [hmm] at hs2
      split at hs2 <;> simp at hs2 <;> subst hs2 <;> constructor <;> simp [hq]
    | goWorker i =>
      simp only [hmm] at hs2
      simp at hs2; subst hs2; constructor <;> simp [hq]
    | goCloser =>
      simp only [hmm] at hs2
      simp at hs2; subst hs2; constructor <;> simp [hq]
    | recv =>
      simp only [hmm] at hs2
      split at hs2
      · simp at hs2; subst hs2; constructor <;> simp [hq]
      · split at hs2 <;> simp at hs2
        subst hs2; constructor <;> simp [hq]
    | write page contact =>
      simp only [hmm] at hs2
      split at hs2
      · simp at hs2; subst hs2; constructor <;> simp [hq]
      · simp at hs2; subst hs2; constructor <;> simp [hq]
      · simp at hs2
    | count =>
      simp only [hmm] at hs2
      simp at hs2; subst hs2; constructor <;> simp [hq]
    | print =>
      simp only [hmm] at hs2
      simp at hs2; subst hs2; constructor <;> simp [hq, hst]
    | returned => exact absurd hmm hm
  · have hq := h.quiet hst
    rw [if_neg hm] at hq
    have hs2 := hcl.2
    unfold closerStep at hs2
    split at hs2
    · simp at hs2
    · split at hs2 <;> simp at hs2
      subst hs2; constructor <;> simp [hq, hm]
    · split at hs2 <;> simp at hs2 <;> subst hs2 <;> constructor <;> simp [hq, hm]
    · simp at hs2
  · have hq := h.quiet hst
    rw [if_neg hm] at hq
    obtain ⟨e1, e2⟩ := getContacts_out hw
    constructor
    · intro hr
      rw [e1] at hr
      exact absurd hr hm
    · intro hrun
      rcases e2 with ⟨-, e3⟩ | e3
      · rw [e3, e1, if_neg hm, hq]
      · exact absurd hrun e3

theorem out_reachable {env : Env} {s : State} (hr : Reachable env s) : Out s :=
  reachable_induction out_init (fun _ _ _ _ hp hs => out_step hp hs) hr

/-! ## Completed runs -/

theorem wsum_all_done {l : List WorkerPC} (h : ∀ w ∈ l, w = .done) (f : WorkerPC → Nat) :
    wsum f l = l.length * f .done := by
  induction l with
  | nil => simp [wsum]
  | cons a l ih =>
    have ha := h a (by simp)
    have := ih (fun w hw => h w (by simp [hw]))
    subst ha
    simp only [wsum, List.map_cons, List.sum_cons, List.length_cons] at this ⊢
    rw [this, Nat.add_mul]
    omega

theorem finished_of_afterLoop {env : Env} {s : State} (hr : Reachable env s)
    (hfin : afterLoop s.main = true) : Finished env s := by
  have hc := core_reachable hr
  have hp := proto_reachable hr
  obtain ⟨hcl, hbuf⟩ := hp.drained hfin
  have hcf := hp.closedIff.1 hcl
  obtain ⟨hlen, hall⟩ := all_done_of_pastWait hp (by simp [hcf, pastWait])
  have e1 := hc.pages
  have e2 := hc.retiredCount
  have e3 := hc.cursor
  have e4 := hc.fetchedCount
  rw [wsum_all_done hall] at e1 e2 e3
  simp only [pendingPage, retired, pendingInc, Nat.mul_zero, Nat.mul_one, Nat.add_zero] at e1 e2 e3
  have hperm : s.fetched.Perm s.claimed := by
    rw [List.perm_iff_count]
    intro p
    have := e4 p
    rw [wsum_all_done hall] at this
    simpa [prefetch, prefetchOf] using this
  have hsplit := List.length_eq_length_filter_add (l := s.fetched) (nonEmptyPage env)
  have hl := hperm.length_eq
  have hcl' : s.claimed.length = s.state.totalPages + env.concurrency := by omega
  have hcr := hc.claimedRange
  rw [hcl'] at hcr
  exact ⟨hall, hlen, hcl, hbuf, hcr, hcr ▸ hperm, by omega, by omega, by omega⟩

theorem afterLoop_of_returned {s : State} (h : s.main = .returned) : afterLoop s.main = true := by
  simp [h, afterLoop]

/-- Records written so far and still in flight add up to the batches fetched. -/
theorem in_flight_account {env : Env} {s : State} (hr : Reachable env s) (c : Contact) :
    (s.written.map Prod.snd).count c + ((inHand s.main).map Prod.snd).count c
      + (s.ch.buf.map Prod.snd).count c + wsum (fun w => (remaining w).count c) s.workers
      = (s.fetched.flatMap (batch env)).count c := by
  have h := recs_reachable hr
  have := h.conserve c
  rw [← h.fifo] at this
  simpa [List.count_append, Nat.add_assoc] using this

/-- At the end the sink has received exactly the fetched batches. -/
theorem written_perm_of_finished {env : Env} {s : State} (hr : Reachable env s)
    (hfin : afterLoop s.main = true) :
    (s.written.map Prod.snd).Perm (s.fetched.flatMap (batch env)) ∧
    s.state.totalRecords = s.written.length ∧ s.written = s.pushed := by
  have hf := finished_of_afterLoop hr hfin
  have h := recs_reachable hr
  have hin : inHand s.main = [] := by
    cases hm : s.main <;> simp [hm, afterLoop, inHand] at hfin ⊢
  have hun : uncounted s.main = 0 := by
    cases hm : s.main <;> simp [hm, afterLoop, uncounted] at hfin ⊢
  have e1 := h.fifo
  rw [hin, hf.bufEmpty] at e1
  simp at e1
  have e2 := h.counted
  rw [hun] at e2
  refine ⟨?_, by omega, e1⟩
  rw [List.perm_iff_count]
  intro c
  have := h.conserve c
  rw [wsum_all_done hf.allDone] at this
  simp only [remaining, List.count_nil, Nat.mul_zero, Nat.add_zero] at this
  rw [e1]
  exact this

theorem length_filter_le_range (M K : Nat) :
    ((List.range' 1 M).filter (fun p => decide (p ≤ K))).length = min M K := by
  induction M with
  | zero => simp
  | succ M ih =>
    rw [List.range'_1_concat, List.filter_append, List.length_append, ih]
    by_cases h : 1 + M ≤ K
    · simp [List.filter_cons, h]
      omega
    · simp [List.filter_cons, h]
      omega

theorem nonEmptyPage_of_shape {env : Env} {K : Nat} (hshape : Shape env K) {p : Nat}
    (h1 : 1 ≤ p) (h2 : p ≤ K + env.concurrency) : nonEmptyPage env p = decide (p ≤ K) := by
  by_cases hk : p ≤ K
  · obtain ⟨cs, hcs, hne⟩ := hshape.1 p h1 hk
    simp [nonEmptyPage_true hcs hne, hk]
  · have := hshape.2 p (by omega) h2
    simp [nonEmptyPage_false this rfl, hk]

theorem batch_empty_of_shape {env : Env} {K : Nat} (hshape : Shape env K) {p : Nat}
    (h1 : K < p) (h2 : p ≤ K + env.concurrency) : batch env p = [] :=
  batch_of_ok (hshape.2 p h1 h2)

/-- Totals of a run that left the receive loop, under `Shape`. -/
theorem totals_of_shape {env : Env} {K : Nat} {s : State} (hshape : Shape env K)
    (hN : 1 ≤ env.concurrency) (hr : Reachable env s) (hfin : afterLoop s.main = true) :
    s.state.totalPages = K ∧
    s.state.totalRecords = ((List.range' 1 K).map (fun p => (batch env p).length)).sum := by
  have hf := finished_of_afterLoop hr hfin
  have hb := claimed_le_of_bounded (proto_reachable hr) (bounded_reachable (K := K) hshape hr)
  have hcl : s.claimed.length = s.state.totalPages + env.concurrency := by
    rw [hf.claimedAll]; simp
  have hle : s.state.totalPages + env.concurrency ≤ K + env.concurrency := by omega
  have e1 := (hf.fetchedAll.filter (nonEmptyPage env)).length_eq
  rw [hf.nonEmpty] at e1
  have e2 : (List.range' 1 (s.state.totalPages + env.concurrency)).filter (nonEmptyPage env)
      = (List.range' 1 (s.state.totalPages + env.concurrency)).filter
          (fun p => decide (p ≤ K)) := by
    apply List.filter_congr
    intro p hp
    simp only [List.mem_range'_1] at hp
    exact nonEmptyPage_of_shape hshape hp.1 (by omega)
  rw [e2, length_filter_le_range] at e1
  have hK : s.state.totalPages = K := by omega
  refine ⟨hK, ?_⟩
  obtain ⟨hperm, hcount, -⟩ := written_perm_of_finished hr hfin
  have e3 := hperm.length_eq
  rw [List.length_map] at e3
  have e4 := (hf.fetchedAll.flatMap_right (batch env)).length_eq
  rw [hcount, e3, e4, hK, List.length_flatMap]
  have e5 : List.range' 1 (K + env.concurrency)
      = List.range' 1 K ++ List.range' (1 + K) env.concurrency := by
    rw [List.range'_append_1, Nat.add_comm]
  rw [e5, List.map_append, List.sum_append]
  have e6 : (List.map (List.length ∘ batch env) (List.range' (1 + K) env.concurrency)).sum
      = 0 := by
    apply List.sum_eq_zero
    intro x hx
    simp only [List.mem_map, List.mem_range'_1, Function.comp] at hx
    obtain ⟨p, hp, rfl⟩ := hx
    rw [batch_empty_of_shape hshape (by omega) (by omega)]
    rfl
  rw [e6]
  rfl

/-- The hypothesis "empty from page `K + 1` on" gives `Shape`. -/
theorem shape_of_exhausted {env : Env} {K : Nat}
    (h1 : ∀ p, 1 ≤ p → p ≤ K → ∃ cs, _getContacts env.upstream p = .ok cs ∧ cs ≠ [])
    (h2 : ∀ p, K < p → _getContacts env.upstream p = .ok []) : Shape env K :=
  ⟨h1, fun p hp _ => h2 p hp⟩

/-- The records of page `p` received so far are a prefix of its batch. -/
theorem pushedOf_isPrefixOf {env : Env} {s : State} (hr : Reachable env s) (p : Nat) :
    pushedOf s.pushed p <+: batch env p := by
  have hc := core_reachable hr
  have h := recs_reachable hr
  by_cases hz : wsum (holds p) s.workers = 0
  · rw [h.settled p hz]
    split
    · exact List.prefix_refl _
    · exact List.nil_prefix
  · obtain ⟨w, hw, hne⟩ := exists_pos_of_wsum hz
    have hpage : pageOf w = some p := by
      by_contra hn
      simp [holds, hn] at hne
    rw [h.order w hw p hpage]
    have hb := hc.batches w hw
    cases w with
    | emitting q cs k =>
      simp only [pageOf, Option.some.injEq] at hpage
      subst hpage
      simp only [batchOk] at hb
      rw [batch_of_ok hb.1]
      exact List.take_prefix k cs
    | _ => exact List.nil_prefix

/-! ## Fetched pages -/

theorem reachable_runOf {env : Env} {sched : List Tid}
    (h : (runFrom env init sched).isSome = true) : Reachable env (runOf env sched) := by
  refine ⟨sched, ?_⟩
  unfold runOf
  cases hrun : runFrom env init sched with
  | none => simp [hrun] at h
  | some s => rfl

/-- A worker transition adds to `fetched` only a page the upstream served. -/
theorem getContacts_fetched {env : Env} {s s' : State} {i : Nat} {pc : WorkerPC}
    (hs : getContacts env s i pc = some s') :
    s'.fetched = s.fetched ∨
      ∃ p cs, s'.fetched = s.fetched ++ [p] ∧ _getContacts env.upstream p = .ok cs := by
  cases pc with
  | lockCursor =>
    simp [getContacts] at hs
    obtain ⟨-, rfl⟩ := hs
    exact Or.inl rfl
  | readCursor => simp [getContacts] at hs; subst hs; exact Or.inl rfl
  | incLoad p => simp [getContacts] at hs; subst hs; exact Or.inl rfl
  | incStore p t => simp [getContacts] at hs; subst hs; exact Or.inl rfl
  | unlockCursor p =>
    simp only [getContacts] at hs
    split at hs <;> simp at hs <;> subst hs <;> exact Or.inl rfl
  | fetching p =>
    cases hf : _getContacts env.upstream p with
    | error e => simp [getContacts, hf] at hs; subst hs; exact Or.inl rfl
    | ok cs =>
      simp only [getContacts, hf] at hs
      split at hs <;> simp at hs <;> subst hs <;> exact Or.inr ⟨p, cs, rfl, hf⟩
  | lockPages p cs =>
    simp [getContacts] at hs
    obtain ⟨-, rfl⟩ := hs
    exact Or.inl rfl
  | loadPages p cs => simp [getContacts] at hs; subst hs; exact Or.inl rfl
  | storePages p cs t => simp [getContacts] at hs; subst hs; exact Or.inl rfl
  | unlockPages p cs =>
    simp only [getContacts] at hs
    split at hs <;> simp at hs <;> subst hs <;> exact Or.inl rfl
  | emitting p cs k =>
    simp only [getContacts] at hs
    split at hs
    · simp at hs; subst hs; exact Or.inl rfl
    · split at hs
      · simp at hs; subst hs; exact Or.inl rfl
      · split at hs <;> simp at hs
        subst hs; exact Or.inl rfl
  | returned =>
    simp only [getContacts] at hs
    split at hs <;> simp at hs <;> subst hs <;> exact Or.inl rfl
  | done => simp [getContacts] at hs

theorem crawlContacts_fetched {env : Env} {s s' : State}
    (hs : crawlContacts env s = some s') : s'.fetched = s.fetched := by
  unfold crawlContacts at hs
  split at hs
  · split at hs <;> simp at hs <;> subst hs <;> rfl
  · simp at hs; subst hs; rfl
  · simp at hs; subst hs; rfl
  · split at hs
    · simp at hs; subst hs; rfl
    · split at hs <;> simp at hs
      subst hs; rfl
  · split at hs <;> simp at hs <;> subst hs <;> rfl
  · simp at hs; subst hs; rfl
  · simp at hs; subst hs; rfl
  · simp at hs

theorem closerStep_fetched {s s' : State} (hs : closerStep s = some s') :
    s'.fetched = s.fetched := by
  unfold closerStep at hs
  split at hs
  · simp at hs
  · split at hs <;> simp at hs
    subst hs; rfl
  · split at hs <;> simp at hs <;> subst hs <;> rfl
  · simp at hs

/-- Every page in `fetched` was served by the upstream, with batch `batch env p`. -/
theorem fetched_ok {env : Env} {s : State} (hr : Reachable env s) :
    ∀ p ∈ s.fetched, _getContacts env.upstream p = .ok (batch env p) := by
  refine reachable_induction (P := fun s => ∀ p ∈ s.fetched,
    _getContacts env.upstream p = .ok (batch env p)) (by simp [init]) ?_ hr
  intro s s' t _ hP hs
  obtain ⟨-, -, hm | hcl | ⟨i, pc, -, hi, hw⟩⟩ := step_cases hs
  · rw [crawlContacts_fetched hm.2]; exact hP
  · rw [closerStep_fetched hcl.2]; exact hP
  · rcases getContacts_fetched hw with e | ⟨p, cs, e, hok⟩
    · rw [e]; exact hP
    · rw [e]
      intro q hq
      simp only [List.mem_append, List.mem_singleton] at hq
      rcases hq with hq | rfl
      · exact hP q hq
      · rw [batch_of_ok hok, hok]

theorem remaining_length_le {env : Env} {B : Nat} (hB : ∀ p, (batch env p).length ≤ B)
    {w : WorkerPC} (hw : batchOk env w) : (remaining w).length ≤ B := by
  have key : ∀ (p : Nat) (cs : List Contact),
      _getContacts env.upstream p = .ok cs → cs.length ≤ B := by
    intro p cs hcs
    have := hB p
    rwa [batch_of_ok hcs] at this
  cases w with
  | lockPages p cs => exact key p cs hw.1
  | loadPages p cs => exact key p cs hw.1
  | storePages p cs t => exact key p cs hw.1
  | unlockPages p cs => exact key p cs hw.1
  | emitting p cs k =>
    have := key p cs hw.1
    simp only [remaining, List.length_drop]
    omega
  | _ => simp [remaining]

/-! ## The claims -/

/-- C1 (page cursor uniqueness). In every reachable state, whatever the number
of workers and their interleaving, the values returned so far by the claim step
of `getContacts` (line 74, under `nextPageMutex`) are, in the order they were
handed out, exactly `1, 2, ..., M` where `M` is the number of claims: no page
number is returned twice, none is skipped, and they are strictly increasing. -/
theorem page_cursor_unique (env : Env) (s : State) (hr : Reachable env s) :
    s.claimed = List.range' 1 s.claimed.length ∧ s.claimed.Nodup ∧
      s.claimed.Pairwise (fun a b => a < b) := by
  have h := (core_reachable hr).claimedRange
  refine ⟨h, ?_, ?_⟩
  · rw [h]; exact List.nodup_range' 1 _
  · rw [h]; exact List.pairwise_lt_range' 1 _

/-- C2 (final page count). For every pool size `N ≥ 1` and every `K`, when the
upstream serves a non-empty batch for each page `1..K` and an empty batch for
every page beyond `K`, every completed run (`crawlContacts` has returned) has
`totalPages = K`; for `K = 0` it also has `totalRecords = 0`; and what it
printed is the summary line with these totals. -/
theorem final_page_count (env : Env) (K : Nat) (hN : 1 ≤ env.concurrency)
    (hfull : ∀ p, 1 ≤ p → p ≤ K → ∃ cs, _getContacts env.upstream p = .ok cs ∧ cs ≠ [])
    (hempty : ∀ p, K < p → _getContacts env.upstream p = .ok [])
    (s : State) (hr : Reachable env s) (hfin : s.main = .returned) :
    s.state.totalPages = K ∧ (K = 0 → s.state.totalRecords = 0) ∧
      s.stdout = summary s.state.totalRecords K := by
  have hshape := shape_of_exhausted hfull hempty
  obtain ⟨h1, h2⟩ := totals_of_shape hshape hN hr (afterLoop_of_returned hfin)
  have ho := out_reachable hr
  have hq := ho.quiet (ho.ret hfin)
  rw [if_pos hfin, h1] at hq
  refine ⟨h1, ?_, hq⟩
  intro hK
  subst hK
  simpa using h2

/-- C3 (conservation). In every reachable state each record is accounted for:
the records written, the one in the collector's hand, those buffered in the
channel and those a worker has fetched and not yet sent add up, as a multiset,
to the batches of the pages fetched. In every completed run the records handed
to `writeContact` are therefore, as a multiset, exactly the records of the
batches the upstream returned for the fetched pages, and `totalRecords` is the
sum of those batch lengths. -/
theorem records_conserved (env : Env) (s : State) (hr : Reachable env s) :
    (∀ c, (s.written.map Prod.snd).count c + ((inHand s.main).map Prod.snd).count c
        + (s.ch.buf.map Prod.snd).count c + wsum (fun w => (remaining w).count c) s.workers
        = (s.fetched.flatMap (batch env)).count c) ∧
    (∀ p ∈ s.fetched, _getContacts env.upstream p = .ok (batch env p)) ∧
    (s.main = .returned →
      (s.written.map Prod.snd).Perm (s.fetched.flatMap (batch env)) ∧
      s.state.totalRecords = (s.fetched.map (fun p => (batch env p).length)).sum) := by
  refine ⟨in_flight_account hr, fetched_ok hr, ?_⟩
  intro hfin
  obtain ⟨hperm, hcount, -⟩ := written_perm_of_finished hr (afterLoop_of_returned hfin)
  refine ⟨hperm, ?_⟩
  have := hperm.length_eq
  rw [List.length_map] at this
  rw [hcount, this, List.length_flatMap]
  rfl

/-- C4 (termination). When the upstream serves non-empty batches for pages
`1..K` and empty ones beyond, every `writeContact` call returns and the channel
has capacity at least 1: every execution is finite (a schedule has at most
`measure env K init` transitions), the process stays alive, in every reachable
state in which `crawlContacts` has not returned some goroutine can move (no
deadlock, whatever the pool size, in particular with three workers and `K = 0`),
every reachable state can be run on until `crawlContacts` returns, and the
receive loop ends as soon as the channel is closed and empty. -/
theorem crawl_terminates (env : Env) (K : Nat) (hcap : 1 ≤ env.capacity)
    (hsink : SinkReturns env)
    (hfull : ∀ p, 1 ≤ p → p ≤ K → ∃ cs, _getContacts env.upstream p = .ok cs ∧ cs ≠ [])
    (hempty : ∀ p, K < p → _getContacts env.upstream p = .ok []) :
    (∀ sched s, runFrom env init sched = some s → sched.length ≤ measure env K init) ∧
    (∀ s, Reachable env s → s.status = .running ∧
      (s.main ≠ .returned → ∃ t s', step env s t = some s') ∧
      ∃ sched sf, runFrom env s sched = some sf ∧ sf.main = .returned) ∧
    (∀ s, Reachable env s → s.main = .recv → s.ch.closed = true → s.ch.buf = [] →
      ∃ s', step env s .main = some s' ∧ s'.main = .print) := by
  have hshape := shape_of_exhausted hfull hempty
  refine ⟨?_, ?_, ?_⟩
  · intro sched s hrun
    have := run_length_from (K := K) hshape hsink sched init s ⟨[], rfl⟩ hrun
    omega
  · intro s hr
    have hst := (bounded_reachable (K := K) hshape hr).alive hsink
    exact ⟨hst, fun hm => progress hcap hsink hr hst hm,
      completes_from hshape hsink hcap _ s hr rfl⟩
  · intro s hr hm hcl hb
    have hst := (bounded_reachable (K := K) hshape hr).alive hsink
    refine ⟨{ s with main := .print }, ?_, rfl⟩
    simp [step, hst, hm, crawlContacts, hb, hcl]

/-- C5 (single close, no send after close). In every reachable state `close(ch)`
has been executed at most once, and exactly when the channel is closed; whenever
the closer stands at `close(ch)` or the channel is closed, the wait-group counter
is zero and each of the `concurrency` workers has ended, so no worker is at a
send; the process never panics with a send on a closed channel or a second
close; and every record sent is written, in the collector's hand or still
buffered: none is lost. -/
theorem close_once (env : Env) (s : State) (hr : Reachable env s) :
    s.closes ≤ 1 ∧ (s.closes = 1 ↔ s.ch.closed = true) ∧
    ((s.closer = .closing ∨ s.ch.closed = true) →
      s.wg = 0 ∧ s.workers.length = env.concurrency ∧ ∀ w ∈ s.workers, w = .done) ∧
    s.status ≠ .panicked .sendOnClosed ∧ s.status ≠ .panicked .closeOfClosed ∧
    s.written ++ inHand s.main ++ s.ch.buf = s.pushed := by
  have hp := proto_reachable hr
  have hcc := hp.closesCount
  refine ⟨?_, ?_, ?_, ?_, ?_, (recs_reachable hr).fifo⟩
  · split at hcc <;> omega
  · constructor
    · intro h1
      by_contra hn
      rw [if_neg hn] at hcc
      omega
    · intro h1
      rw [if_pos h1] at hcc
      exact hcc
  · intro h
    have hpw : pastWait s.closer = true := by
      rcases h with h | h
      · simp [h, pastWait]
      · simp [hp.closedIff.1 h, pastWait]
    exact ⟨hp.closerWg hpw, all_done_of_pastWait hp hpw⟩
  · intro h
    have := hp.noPanic
    simp [h] at this
  · intro h
    have := hp.noPanic
    simp [h] at this

/-- C6 (batch-order preservation). For every page `p`, in every reachable state
and under every interleaving, the records of page `p` among those the collector
has received from the channel are a prefix of the batch fetched for `p`, in the
batch's order (`batch env p` being what the fetch of `p` returned); in a
completed run they are the whole batch of every fetched page. Records of other
pages may sit between them. -/
theorem batch_order (env : Env) (s : State) (hr : Reachable env s) (p : Nat) :
    pushedOf (received s) p <+: batch env p ∧
    (p ∈ s.fetched → _getContacts env.upstream p = .ok (batch env p)) ∧
    (s.main = .returned → p ∈ s.fetched → pushedOf s.written p = batch env p) := by
  have h := recs_reachable hr
  refine ⟨?_, fetched_ok hr p, ?_⟩
  · have h1 : received s <+: s.pushed := ⟨s.ch.buf, h.fifo⟩
    have h2 : pushedOf (received s) p <+: pushedOf s.pushed p :=
      List.IsPrefix.map _ (List.IsPrefix.filter _ h1)
    exact h2.trans (pushedOf_isPrefixOf hr p)
  · intro hfin hmem
    have hf := finished_of_afterLoop hr (afterLoop_of_returned hfin)
    obtain ⟨-, -, e⟩ := written_perm_of_finished hr (afterLoop_of_returned hfin)
    rw [e, h.settled p (by rw [wsum_all_done hf.allDone]; simp [holds, pageOf]), if_pos hmem]

/-- C8 as amended (backpressure). In every reachable state the channel holds at
most `capacity` records and, with the one record the collector may hold, at
most `capacity + 1` records have been sent and not yet accepted by the sink;
each worker holds in addition the unsent rest of the one batch it fetched, so
when no batch has more than `B` records at most `capacity + 1 + concurrency * B`
records are in flight, whatever the total number of records; and while the
buffer is full no worker can complete a send. -/
theorem backpressure_bound (env : Env) (B : Nat) (hB : ∀ p, (batch env p).length ≤ B)
    (s : State) (hr : Reachable env s) :
    s.ch.buf.length ≤ env.capacity ∧
    s.ch.buf.length + (inHand s.main).length ≤ env.capacity + 1 ∧
    inFlight s ≤ env.capacity + 1 + env.concurrency * B ∧
    (s.ch.buf.length = env.capacity → ∀ i p cs k c,
      s.workers[i]? = some (.emitting p cs k) → cs[k]? = some c →
      step env s (.worker i) = none) := by
  have hc := core_reachable hr
  have hp := proto_reachable hr
  have hcap := hp.cap
  have hhand : (inHand s.main).length ≤ 1 := by
    cases s.main <;> simp [inHand]
  have hrem : wsum (fun w => (remaining w).length) s.workers ≤ s.workers.length * B := by
    have hb := hc.batches
    generalize s.workers = l at hb
    induction l with
    | nil => simp [wsum]
    | cons a l ih =>
      have ha := hb a (by simp)
      have := ih (fun w hw => hb w (by simp [hw]))
      have hle : (remaining a).length ≤ B := remaining_length_le hB ha
      simp only [wsum, List.map_cons, List.sum_cons, List.length_cons] at this ⊢
      rw [Nat.add_mul]
      omega
  have hwl := workers_le_concurrency hp
  have hmul : s.workers.length * B ≤ env.concurrency * B := Nat.mul_le_mul_right B hwl
  refine ⟨hcap, by omega, by unfold inFlight; omega, ?_⟩
  intro hfull i p cs k c hi hk
  unfold step
  split
  · rename_i hrun
    have hnc : s.ch.closed = false := by
      cases hcl : s.ch.closed with
      | false => rfl
      | true =>
        have hfin := hp.closedIff.1 hcl
        have := (all_done_of_pastWait hp (by simp [hfin, pastWait])).2 _
          ((mem_split hi _).2 (Or.inl rfl))
        simp at this
    simp [hi, getContacts, hk, hnc, hfull]
  · rfl

/-- C9 (single-worker run). With one worker, non-empty batches for pages `1..K`
and an empty batch for page `K + 1`: if every `writeContact` call returns and
the channel has room for a record, every execution is finite, the process stays
alive, is never stuck before `crawlContacts` returns and can always be run on
until it returns; and every completed
run has `totalPages = K`, `totalRecords` equal to the sum of the lengths of the
batches of pages `1..K`, and has printed exactly the line
`Processed <totalRecords> records in <totalPages> pages.` and a newline. -/
theorem single_worker_run (env : Env) (K : Nat) (hN : env.concurrency = 1)
    (hfull : ∀ p, 1 ≤ p → p ≤ K → ∃ cs, _getContacts env.upstream p = .ok cs ∧ cs ≠ [])
    (hempty : _getContacts env.upstream (K + 1) = .ok []) :
    (SinkReturns env → 1 ≤ env.capacity →
      (∀ sched s, runFrom env init sched = some s → sched.length ≤ measure env K init) ∧
      (∀ s, Reachable env s → s.status = .running ∧
        (s.main ≠ .returned → ∃ t s', step env s t = some s') ∧
        ∃ sched sf, runFrom env s sched = some sf ∧ sf.main = .returned)) ∧
    (∀ s, Reachable env s → s.main = .returned →
      s.state.totalPages = K ∧
      s.state.totalRecords = ((List.range' 1 K).map (fun p => (batch env p).length)).sum ∧
      s.stdout = "Processed " ++ toString s.state.totalRecords ++ " records in "
        ++ toString s.state.totalPages ++ " pages.\n") := by
  have hshape : Shape env K := by
    refine ⟨hfull, ?_⟩
    intro p h1 h2
    have : p = K + 1 := by omega
    rw [this]
    exact hempty
  refine ⟨?_, ?_⟩
  · intro hsink hcap
    refine ⟨?_, ?_⟩
    · intro sched s hrun
      have := run_length_from (K := K) hshape hsink sched init s ⟨[], rfl⟩ hrun
      omega
    · intro s hr
      have hst := (bounded_reachable (K := K) hshape hr).alive hsink
      exact ⟨hst, fun hm => progress hcap hsink hr hst hm,
        completes_from hshape hsink hcap _ s hr rfl⟩
  · intro s hr hfin
    obtain ⟨h1, h2⟩ := totals_of_shape hshape (by omega) hr (afterLoop_of_returned hfin)
    have ho := out_reachable hr
    have hq := ho.quiet (ho.ret hfin)
    rw [if_pos hfin] at hq
    exact ⟨h1, h2, hq⟩

/-- C10 (one empty fetch per worker). For every upstream and every pool size,
in every completed run each worker has ended, the empty batches fetched are as
many as the workers, the run made exactly `totalPages + concurrency` fetches,
on the pages `1 .. totalPages + concurrency`, each once, and the cursor ends at
`nextPage = totalPages + concurrency + 1`. -/
theorem one_empty_fetch_per_worker (env : Env) (s : State) (hr : Reachable env s)
    (hfin : s.main = .returned) :
    (∀ w ∈ s.workers, w = .done) ∧ s.workers.length = env.concurrency ∧
    (s.fetched.filter (fun p => (batch env p).isEmpty)).length = env.concurrency ∧
    s.fetched.length = s.state.totalPages + env.concurrency ∧
    s.fetched.Perm (List.range' 1 (s.state.totalPages + env.concurrency)) ∧
    s.fetched.Nodup ∧
    s.state.nextPage = s.state.totalPages + env.concurrency + 1 := by
  have hf := finished_of_afterLoop hr (afterLoop_of_returned hfin)
  have hl := hf.fetchedAll.length_eq
  simp only [List.length_range'] at hl
  refine ⟨hf.allDone, hf.poolSize, ?_, hl, hf.fetchedAll, ?_, hf.cursorEnd⟩
  · have := hf.empty
    simpa [nonEmptyPage] using this
  · exact hf.fetchedAll.symm.nodup (List.nodup_range' 1 _)

/-- Mutual exclusion: at most one worker is between `Lock` and `Unlock` of
`nextPageMutex`, at most one between those of `totalPagesMutex`, and none when
the mutex is free. -/
theorem mutual_exclusion (env : Env) (s : State) (hr : Reachable env s) :
    wsum inCursorCS s.workers ≤ 1 ∧ wsum inPagesCS s.workers ≤ 1 ∧
    (s.state.nextPageMutex = false → ∀ w ∈ s.workers, inCursorCS w = 0) ∧
    (s.state.totalPagesMutex = false → ∀ w ∈ s.workers, inPagesCS w = 0) := by
  have hc := core_reachable hr
  have h1 := hc.cursorMutex
  have h2 := hc.pagesMutex
  refine ⟨by split at h1 <;> omega, by split at h2 <;> omega, ?_, ?_⟩
  · intro hm
    simp only [hm] at h1
    exact wsum_eq_zero (by simpa using h1)
  · intro hm
    simp only [hm] at h2
    exact wsum_eq_zero (by simpa using h2)

/-- A failed page fetch is fatal: the worker's transition prints the transport
error if there is one and exits the process; no record is written or counted by
it, and afterwards no goroutine can move, so no summary is printed. -/
theorem fetch_failure_fatal (env : Env) (s : State) (i p : Nat) (e : Exit)
    (hst : s.status = .running) (hm : s.main ≠ .returned)
    (hi : s.workers[i]? = some (.fetching p))
    (hf : _getContacts env.upstream p = .error e) :
    ∃ s', step env s (.worker i) = some s' ∧ s'.status = .exited e.code ∧
      s'.stdout = s.stdout ++ e.printed ∧ s'.written = s.written ∧
      s'.state.totalRecords = s.state.totalRecords ∧ s'.database = s.database ∧
      ∀ t, step env s' t = none := by
  refine ⟨{ s with status := .exited e.code, stdout := s.stdout ++ e.printed }, ?_,
    rfl, rfl, rfl, rfl, rfl, ?_⟩
  · rw [step_worker_eq hst hm hi]
    simp [getContacts, hf]
  · intro t
    simp [step]

/-- A failed `database.Prepare` is fatal: `checkErr` panics inside
`writeContact`; the record is neither counted nor inserted, and afterwards no
goroutine can move, so no summary is printed. -/
theorem prepare_failure_fatal (env : Env) (s : State) (p : Nat) (c : Contact)
    (hst : s.status = .running) (hm : s.main = .write p c)
    (hk : env.sink s.written.length c = .prepareFailed) :
    ∃ s', step env s .main = some s' ∧ s'.status = .panicked .sinkPrepare ∧
      s'.stdout = s.stdout ∧ s'.written = s.written ∧
      s'.state.totalRecords = s.state.totalRecords ∧ s'.database = s.database ∧
      ∀ t, step env s' t = none := by
  refine ⟨{ s with status := .panicked .sinkPrepare }, ?_, rfl, rfl, rfl, rfl, rfl, ?_⟩
  · simp [step, hst, hm, crawlContacts, hk, writeContact]
  · intro t
    simp [step]

/-- Exact run length: under `Shape` with a returning sink, every complete run
has the same number of transitions, `measure env K init`, whatever the
interleaving. -/
theorem run_length_exact (env : Env) (K : Nat) (hN : 1 ≤ env.concurrency)
    (hsink : SinkReturns env) (hshape : Shape env K) (sched : List Tid) (s : State)
    (hrun : runFrom env init sched = some s) (hfin : s.main = .returned) :
    sched.length = measure env K init := by
  have hr : Reachable env s := ⟨sched, hrun⟩
  have hlen := run_length_from (K := K) hshape hsink sched init s ⟨[], rfl⟩ hrun
  have hf := finished_of_afterLoop hr (afterLoop_of_returned hfin)
  obtain ⟨hK, -⟩ := totals_of_shape hshape hN hr (afterLoop_of_returned hfin)
  have hcf := (proto_reachable hr).closedIff.1 hf.chClosed
  have hz : measure env K s = 0 := by
    unfold measure
    rw [wsum_all_done hf.allDone, hf.bufEmpty, hfin, hcf, hf.claimedAll, pool_zero env]
    · simp [workerCost, mainCost, closerCost]
    · simp only [List.length_range']
      omega
  omega

/-! ## Concrete runs: witnesses -/

theorem twoWorkers_full (p : Nat) (h1 : 1 ≤ p) (h2 : p ≤ 2) :
    ∃ cs, _getContacts twoWorkers.upstream p = .ok cs ∧ cs ≠ [] := by
  interval_cases p
  · exact ⟨_, rfl, List.cons_ne_nil _ _⟩
  · exact ⟨_, rfl, List.cons_ne_nil _ _⟩

theorem twoWorkers_empty (p : Nat) (h : 2 < p) :
    _getContacts twoWorkers.upstream p = .ok [] := by
  have h1 : p ≠ 1 := by omega
  have h2 : p ≠ 2 := by omega
  simp [_getContacts, twoWorkers, h1, h2]

theorem twoPages_full (p : Nat) (h1 : 1 ≤ p) (h2 : p ≤ 2) :
    ∃ cs, _getContacts twoPages.upstream p = .ok cs ∧ cs ≠ [] := by
  interval_cases p
  · exact ⟨_, rfl, List.cons_ne_nil _ _⟩
  · exact ⟨_, rfl, List.cons_ne_nil _ _⟩

theorem slowSink_batch_le (p : Nat) : (batch slowSink p).length ≤ 4 := by
  by_cases h : p = 1
  · subst h; decide
  · simp [batch, _getContacts, slowSink, h]

set_option maxRecDepth 100000 in
/-- Witness of C1: after both workers of `twoWorkers` have claimed, the claims
are `[1, 2]`. -/
theorem page_cursor_unique_witness :
    (runOf twoWorkers twoWorkersClaims).claimed = [1, 2] ∧
    (runOf twoWorkers twoWorkersClaims).claimed
      = List.range' 1 (runOf twoWorkers twoWorkersClaims).claimed.length ∧
    (runOf twoWorkers twoWorkersClaims).claimed.Nodup :=
  ⟨by decide,
   (page_cursor_unique twoWorkers _ (reachable_runOf (by decide))).1,
   (page_cursor_unique twoWorkers _ (reachable_runOf (by decide))).2.1⟩

set_option maxRecDepth 100000 in
/-- Witness of C2: the complete run of `twoWorkers` counts `K = 2` pages. -/
theorem final_page_count_witness :
    (runOf twoWorkers twoWorkersRun).main = .returned ∧
    (runOf twoWorkers twoWorkersRun).state.totalPages = 2 ∧
    (runOf twoWorkers twoWorkersRun).stdout
      = summary (runOf twoWorkers twoWorkersRun).state.totalRecords 2 :=
  have h := final_page_count twoWorkers 2 (by decide) twoWorkers_full twoWorkers_empty
    (runOf twoWorkers twoWorkersRun) (reachable_runOf (by decide)) (by decide)
  ⟨by decide, h.1, h.2.2⟩

set_option maxRecDepth 100000 in
/-- Witness of C3: in the complete run of `twoWorkers` the three records written
are the three records fetched. -/
theorem records_conserved_witness :
    (runOf twoWorkers twoWorkersRun).main = .returned ∧
    ((runOf twoWorkers twoWorkersRun).written.map Prod.snd).Perm
      ((runOf twoWorkers twoWorkersRun).fetched.flatMap (batch twoWorkers)) ∧
    (runOf twoWorkers twoWorkersRun).state.totalRecords = 3 :=
  have h := (records_conserved twoWorkers (runOf twoWorkers twoWorkersRun)
    (reachable_runOf (by decide))).2.2 (by decide)
  ⟨by decide, h.1, by decide⟩

set_option maxRecDepth 100000 in
/-- Witness of C4: three workers and `K = 0`; every schedule of `emptyThree` has
at most 33 transitions and the given one returns. -/
theorem crawl_terminates_witness :
    measure emptyThree 0 init = 33 ∧
    (∀ sched s, runFrom emptyThree init sched = some s →
      sched.length ≤ measure emptyThree 0 init) ∧
    (∃ sched sf, runFrom emptyThree init sched = some sf ∧ sf.main = .returned) ∧
    (runOf emptyThree emptyThreeRun).main = .returned ∧
    (runOf emptyThree emptyThreeRun).state.totalRecords = 0 ∧
    (runOf emptyThree emptyThreeRun).state.totalPages = 0 :=
  have h := crawl_terminates emptyThree 0 (by decide) (fun _ _ => Or.inl rfl)
    (fun p h1 h2 => absurd h1 (by omega)) (fun _ _ => rfl)
  ⟨by decide, h.1, (h.2.1 init ⟨[], rfl⟩).2.2, by decide, by decide, by decide⟩

set_option maxRecDepth 100000 in
/-- Witness of C5: the complete run of `twoWorkers` closed the channel once,
with both workers ended. -/
theorem close_once_witness :
    (runOf twoWorkers twoWorkersRun).ch.closed = true ∧
    (runOf twoWorkers twoWorkersRun).closes ≤ 1 ∧
    (runOf twoWorkers twoWorkersRun).wg = 0 ∧
    (∀ w ∈ (runOf twoWorkers twoWorkersRun).workers, w = .done) :=
  have h := close_once twoWorkers (runOf twoWorkers twoWorkersRun) (reachable_runOf (by decide))
  ⟨by decide, h.1, (h.2.2.1 (Or.inr (by decide))).1, (h.2.2.1 (Or.inr (by decide))).2.2⟩

set_option maxRecDepth 100000 in
/-- Witness of C6: in the complete run of `twoWorkers` the records arrive in the
order `a, x, b`, and those of page 1 are its batch `a, b` in order. -/
theorem batch_order_witness :
    (runOf twoWorkers twoWorkersRun).written.map (fun r => (r.1, r.2.NodeID))
      = [(1, "a"), (2, "x"), (1, "b")] ∧
    pushedOf (runOf twoWorkers twoWorkersRun).written 1 = batch twoWorkers 1 :=
  ⟨by decide,
   (batch_order twoWorkers (runOf twoWorkers twoWorkersRun) (reachable_runOf (by decide)) 1).2.2
     (by decide) (by decide)⟩

set_option maxRecDepth 100000 in
/-- Evaluation for C7: with a database whose `Exec` fails on the only record,
the run completes, counts the record and prints the summary, and the table
stays empty. -/
theorem exec_error_not_fatal :
    execFails.sink 0 (mkContact "a") = .execFailed ∧
    runFrom execFails init execFailsRun = some (runOf execFails execFailsRun) ∧
    (runOf execFails execFailsRun).main = .returned ∧
    (runOf execFails execFailsRun).status = .running ∧
    (runOf execFails execFailsRun).written = [(1, mkContact "a")] ∧
    (runOf execFails execFailsRun).database = [] ∧
    (runOf execFails execFailsRun).state.totalRecords = 1 ∧
    (runOf execFails execFailsRun).stdout = "Processed 1 records in 1 pages.\n" := by
  decide

set_option maxRecDepth 100000 in
/-- Counterexample to C8 as stated: capacity 1, one worker and a sink that
blocks. Right after the fetch of page 1, before the collector has received
anything, 4 records are fetched and not accepted, more than
`capacity + concurrency = 2`; and in the state where the sink blocks on the
first record and nothing can move any more, 4 records are still in flight. -/
theorem backpressure_counterexample :
    slowSink.sink 0 (mkContact "a") = .blocks ∧
    slowSink.capacity + slowSink.concurrency = 2 ∧
    runFrom slowSink init slowSinkFetched = some (runOf slowSink slowSinkFetched) ∧
    (runOf slowSink slowSinkFetched).main = .recv ∧
    (runOf slowSink slowSinkFetched).written = [] ∧
    inFlight (runOf slowSink slowSinkFetched) = 4 ∧
    ¬ inFlight (runOf slowSink slowSinkFetched) ≤ slowSink.capacity + slowSink.concurrency ∧
    runFrom slowSink init slowSinkRun = some (runOf slowSink slowSinkRun) ∧
    step slowSink (runOf slowSink slowSinkRun) .main = none ∧
    step slowSink (runOf slowSink slowSinkRun) .closer = none ∧
    step slowSink (runOf slowSink slowSinkRun) (.worker 0) = none ∧
    (runOf slowSink slowSinkRun).workers.length = 1 ∧
    inFlight (runOf slowSink slowSinkRun) = 4 ∧
    ¬ inFlight (runOf slowSink slowSinkRun) ≤ slowSink.capacity + slowSink.concurrency := by
  decide

set_option maxRecDepth 100000 in
/-- Witness of C8 as amended: in the blocked state of `slowSink`, with batches of
at most 4 records, at most `1 + 1 + 1 * 4` records are in flight. -/
theorem backpressure_bound_witness :
    (runOf slowSink slowSinkRun).ch.buf.length ≤ slowSink.capacity ∧
    inFlight (runOf slowSink slowSinkRun) ≤ slowSink.capacity + 1 + slowSink.concurrency * 4 :=
  have h := backpressure_bound slowSink 4 slowSink_batch_le (runOf slowSink slowSinkRun)
    (reachable_runOf (by decide))
  ⟨h.1, h.2.2.1⟩

set_option maxRecDepth 100000 in
/-- Witness of C9: the scenario of the specification gives 5 records, 2 pages and
the line `Processed 5 records in 2 pages.`. -/
theorem single_worker_run_witness :
    (runOf twoPages twoPagesRun).main = .returned ∧
    (runOf twoPages twoPagesRun).state.totalPages = 2 ∧
    (runOf twoPages twoPagesRun).state.totalRecords = 5 ∧
    (runOf twoPages twoPagesRun).stdout = "Processed 5 records in 2 pages.\n" ∧
    (∀ sched s, runFrom twoPages init sched = some s → sched.length ≤ 57) :=
  have h := single_worker_run twoPages 2 rfl twoPages_full rfl
  have hv := h.2 (runOf twoPages twoPagesRun) (reachable_runOf (by decide)) (by decide)
  ⟨by decide, hv.1, by decide, by decide,
   (h.1 (fun _ _ => Or.inl rfl) (by decide)).1⟩

set_option maxRecDepth 100000 in
/-- Witness of C10: the complete run of `twoWorkers` made `2 + 2` fetches, of the
pages 1 to 4, and left the cursor at 5. -/
theorem one_empty_fetch_per_worker_witness :
    (runOf twoWorkers twoWorkersRun).state.totalPages = 2 ∧
    (runOf twoWorkers twoWorkersRun).fetched.length
      = (runOf twoWorkers twoWorkersRun).state.totalPages + twoWorkers.concurrency ∧
    (runOf twoWorkers twoWorkersRun).state.nextPage
      = (runOf twoWorkers twoWorkersRun).state.totalPages + twoWorkers.concurrency + 1 :=
  have h := one_empty_fetch_per_worker twoWorkers (runOf twoWorkers twoWorkersRun)
    (reachable_runOf (by decide)) (by decide)
  ⟨by decide, h.2.2.2.1, h.2.2.2.2.2.2⟩

set_option maxRecDepth 100000 in
/-- Witness of mutual exclusion: after the claims of `twoWorkers` both mutexes
are free and no worker is inside a critical section. -/
theorem mutual_exclusion_witness :
    (runOf twoWorkers twoWorkersClaims).state.nextPageMutex = false ∧
    wsum inCursorCS (runOf twoWorkers twoWorkersClaims).workers ≤ 1 ∧
    (∀ w ∈ (runOf twoWorkers twoWorkersClaims).workers, inCursorCS w = 0) :=
  have h := mutual_exclusion twoWorkers (runOf twoWorkers twoWorkersClaims)
    (reachable_runOf (by decide))
  ⟨by decide, h.1, h.2.2.1 (by decide)⟩

set_option maxRecDepth 100000 in
/-- Witness of the fatal fetch failure: `getFails` exits with code 1 on the
first request, having printed the error. -/
theorem fetch_failure_fatal_witness :
    ∃ s', step getFails (runOf getFails getFailsRun) (.worker 0) = some s' ∧
      s'.status = .exited 1 ∧
      s'.stdout = (runOf getFails getFailsRun).stdout ++ "connection refused" ∧
      s'.written = (runOf getFails getFailsRun).written ∧
      s'.state.totalRecords = (runOf getFails getFailsRun).state.totalRecords ∧
      s'.database = (runOf getFails getFailsRun).database ∧
      ∀ t, step getFails s' t = none :=
  fetch_failure_fatal getFails (runOf getFails getFailsRun) 0 1
    { code := 1, printed := "connection refused" } (by decide) (by decide) (by decide) rfl

set_option maxRecDepth 100000 in
/-- Witness of the fatal `Prepare` failure: `prepareFails` panics on its only
record, with nothing counted. -/
theorem prepare_failure_fatal_witness :
    ∃ s', step prepareFails (runOf prepareFails prepareFailsRun) .main = some s' ∧
      s'.status = .panicked .sinkPrepare ∧
      s'.stdout = (runOf prepareFails prepareFailsRun).stdout ∧
      s'.written = (runOf prepareFails prepareFailsRun).written ∧
      s'.state.totalRecords = (runOf prepareFails prepareFailsRun).state.totalRecords ∧
      s'.database = (runOf prepareFails prepareFailsRun).database ∧
      ∀ t, step prepareFails s' t = none :=
  prepare_failure_fatal prepareFails (runOf prepareFails prepareFailsRun) 1 (mkContact "a")
    (by decide) (by decide) (by decide)

set_option maxRecDepth 100000 in
/-- Witness of the exact run length: the complete run of `twoPages` has 57
transitions, the value of `measure` at the start. -/
theorem run_length_exact_witness :
    twoPagesRun.length = measure twoPages 2 init ∧ measure twoPages 2 init = 57 :=
  ⟨run_length_exact twoPages 2 (by decide) (fun _ _ => Or.inl rfl)
      ⟨twoPages_full, fun p h1 h2 => by
        have : p = 3 := by simp [twoPages] at h2; omega
        subst this; rfl⟩
      twoPagesRun (runOf twoPages twoPagesRun) (by decide) (by decide),
   by decide⟩

end Crawler
